import Mathlib

/-!
Shallow embedding of `GatomiaAnalyzer` from
`.github/skills/gatomia/scripts/codewiki_analyzer.py`: module-tree parsing,
component-map construction, reverse-dependency indexing, component- and
module-level dependency analysis, processing order, purpose inference,
report generation and the repository summary; followed by theorems about
these definitions.
-/

/-- Association list modelling a Python `dict` (insertion ordered, unique
keys by construction): `d[k]` lookup, returning the first matching value. -/
def dlookup {α : Type} : List (String × α) → String → Option α
  | [], _ => none
  | (k, v) :: rest, key => if k = key then some v else dlookup rest key

/-- Python `d[k] = v`: overwrite in place when the key is present (the dict
keeps the key's original position), otherwise append at the end. -/
def dinsert {α : Type} : List (String × α) → String → α → List (String × α)
  | [], key, v => [(key, v)]
  | (k, w) :: rest, key, v =>
      if k = key then (key, v) :: rest else (k, w) :: dinsert rest key v

/-- Python `defaultdict(list)` update `d[k].append(v)`: the first append for
a key creates the key at the end, later appends extend its list in place. -/
def dappend {α : Type} : List (String × List α) → String → α → List (String × List α)
  | [], key, v => [(key, [v])]
  | (k, vs) :: rest, key, v =>
      if k = key then (k, vs ++ [v]) :: rest else (k, vs) :: dappend rest key v

mutual
/-- A node of the module-tree input: the record
`{"components": [...], "children": {...}}` (missing fields default to
empty collections, which we fold into the type). -/
inductive MTree : Type where
  | node (components : List String) (children : MForest)
/-- The `children` mapping `{module_path: node, ...}` in insertion order.
The top-level module-tree input has the same shape. -/
inductive MForest : Type where
  | nil
  | cons (path : String) (tree : MTree) (rest : MForest)
end

/-- Python truthiness test of the `children` dict (`len(...) == 0`). -/
def MForest.isEmpty : MForest → Bool
  | .nil => true
  | .cons _ _ _ => false

/-- One entry of `result["modules"]` as built by `parse_module_tree`:
`{"path", "components", "children", "parent", "is_leaf", "level"}`. -/
structure ParsedModule where
  path : String
  components : List String
  children : MForest
  parent : Option String
  is_leaf : Bool
  level : Nat

/-- The result record of `parse_module_tree`. -/
structure ParsedTree where
  modules : List (String × ParsedModule)
  leaf_modules : List String
  parent_modules : List String
  root_modules : List String
  component_to_module : List (String × String)

mutual
/-- The depth-first pre-order sequence of module records visited by the
recursive `traverse` helper of `parse_module_tree`, starting at a single
node keyed `path`: the node's own record (its `is_leaf` flag computed as
`len(children) == 0`), followed by the records of its children's subtrees
at `level + 1` with this node as parent. -/
def preorderNode (path : String) (t : MTree) (parent : Option String) (level : Nat) :
    List ParsedModule :=
  match t with
  | .node comps ch =>
      ⟨path, comps, ch, parent, ch.isEmpty, level⟩ ::
        preorderList ch (some path) (level + 1)
/-- Pre-order visit sequence of a whole children dict, left to right. -/
def preorderList (f : MForest) (parent : Option String) (level : Nat) :
    List ParsedModule :=
  match f with
  | .nil => []
  | .cons p t rest => preorderNode p t parent level ++ preorderList rest parent level
end

/-- The state update `traverse` performs for one visited node: store the
record under its path, append to `leaf_modules`/`parent_modules` and (for a
missing parent) `root_modules`, and point every listed component id at this
module in `component_to_module`. -/
def applyVisit (acc : ParsedTree) (m : ParsedModule) : ParsedTree :=
  { modules := dinsert acc.modules m.path m
    leaf_modules := if m.is_leaf then acc.leaf_modules ++ [m.path] else acc.leaf_modules
    parent_modules := if m.is_leaf then acc.parent_modules else acc.parent_modules ++ [m.path]
    root_modules := if m.parent.isNone then acc.root_modules ++ [m.path] else acc.root_modules
    component_to_module :=
      m.components.foldl (fun d c => dinsert d c m.path) acc.component_to_module }

/-- Embeds `parse_module_tree`: the recursive `traverse` visits nodes in pre-order
and performs, at each node, the state update `applyVisit` (which depends
only on that node's data); so the parse result is the fold of `applyVisit`
over the pre-order visit sequence, starting from the empty result record. -/
def parse_module_tree (t : MForest) : ParsedTree :=
  (preorderList t none 0).foldl applyVisit ⟨[], [], [], [], []⟩

/-- Embeds `max(m["level"] for m in self.parsed_tree["modules"].values())`; Python
`max` raises on an empty sequence, callers below only use this on nonempty
module maps (for nonempty lists the fold from `0` is the true maximum since
levels are nonnegative). -/
def maxLevel (pt : ParsedTree) : Nat :=
  pt.modules.foldl (fun a e => max a e.2.level) 0

/-- The list comprehension
`[path for path, info in modules.items() if info["level"] == level]`. -/
def atLevel (pt : ParsedTree) (lvl : Nat) : List String :=
  (pt.modules.filter (fun e => e.2.level == lvl)).map (fun e => e.1)

/-- Embeds `get_processing_order`: `none` models the `ValueError` that `max()`
raises on an empty module map (`self.parsed_tree` itself is a five-key dict
and hence always truthy, so the `if not self.parsed_tree` re-parse guard
never fires after construction). Otherwise: for `level` in
`range(max_level, -1, -1)`, append the nonempty level batches. -/
def get_processing_order (pt : ParsedTree) : Option (List (List String)) :=
  match pt.modules with
  | [] => none
  | _ :: _ =>
      some (((List.range (maxLevel pt + 1)).reverse).filterMap (fun lvl =>
        if (atLevel pt lvl).isEmpty then none else some (atLevel pt lvl)))

/-- One value of the dependency-graph input dict: all fields are optional
(`.get` with a default in the source). -/
structure CompData where
  id : Option String
  name : Option String
  component_type : Option String
  file_path : Option String
  relative_path : Option String
  depends_on : Option (List String)
deriving DecidableEq

/-- One value of `self.component_map` as built by `build_component_map`
and later mutated by `_build_reverse_dependencies`. -/
structure ComponentRecord where
  id : String
  name : String
  component_type : String
  file_path : String
  relative_path : String
  depends_on : List String
  depended_by : List String
  module : Option String
  dependency_count : Nat
  dependent_count : Nat
deriving DecidableEq

/-- Python `comp_id.split(".")`: split the character list at every dot,
keeping empty segments. -/
def splitOnChar (sep : Char) : List Char → List (List Char)
  | [] => [[]]
  | c :: cs =>
      let rest := splitOnChar sep cs
      if c = sep then [] :: rest
      else
        match rest with
        | [] => [[c]]
        | seg :: segs => (c :: seg) :: segs

/-- Python `comp_id.split(".")[-1]` (the split list is always nonempty). -/
def lastDotSegment (cid : String) : String :=
  ⟨(splitOnChar '.' cid.data).getLastD []⟩

/-- Python `name.lower()` (ASCII case mapping, as in the analyzed names). -/
def strLower (s : String) : String := ⟨s.data.map Char.toLower⟩

/-- The record `build_component_map` creates for one input entry before
module attachment: defaults are the key for `id`, the last `'.'`-separated
segment of the key for `name`, `"unknown"` for `component_type`, `""` for
the paths and `[]` for `depends_on`; `depended_by` starts empty, `module`
starts `None` and `dependent_count` starts `0`. -/
def initRecord (cid : String) (cd : CompData) : ComponentRecord :=
  { id := cd.id.getD cid
    name := cd.name.getD (lastDotSegment cid)
    component_type := cd.component_type.getD "unknown"
    file_path := cd.file_path.getD ""
    relative_path := cd.relative_path.getD ""
    depends_on := cd.depends_on.getD []
    depended_by := []
    module := none
    dependency_count := (cd.depends_on.getD []).length
    dependent_count := 0 }

/-- The second loop of `build_component_map`: overwrite `module` when the
component id is present in `parsed_tree["component_to_module"]`. -/
def moduleAttach (pt : ParsedTree) (k : String) (r : ComponentRecord) : ComponentRecord :=
  match dlookup pt.component_to_module k with
  | some mp => { r with module := some mp }
  | none => r

/-- Embeds `build_component_map`: first loop builds the map from the dependency
graph; second loop (`moduleAttach`) overwrites `module` from
`parsed_tree["component_to_module"]` for the ids present there. -/
def build_component_map (g : List (String × CompData)) (pt : ParsedTree) :
    List (String × ComponentRecord) :=
  (g.foldl (fun m e => dinsert m e.1 (initRecord e.1 e.2)) []).map
    (fun e => (e.1, moduleAttach pt e.1 e.2))

/-- Embeds `reverse[dep_id]` of `_build_reverse_dependencies`: every component id
`a` of the map is appended once per occurrence of `b` in `a`'s
`depends_on`, in map order. -/
def dependentsOf (cm : List (String × ComponentRecord)) (b : String) : List String :=
  cm.flatMap (fun e => e.2.depends_on.filterMap (fun d => if d = b then some e.1 else none))

/-- Embeds `_build_reverse_dependencies`: after the two loops, every component `b`
present in the map holds `depended_by = reverse.get(b, [])` and
`dependent_count = len(depended_by)` (keys absent from `reverse` keep their
initial `[]`/`0`, which equals the empty `dependentsOf` list). -/
def build_reverse (cm : List (String × ComponentRecord)) :
    List (String × ComponentRecord) :=
  cm.map (fun e =>
    (e.1, { e.2 with
              depended_by := dependentsOf cm e.1
              dependent_count := (dependentsOf cm e.1).length }))

/-- One `dep_info`/`dependent_info` dict of `analyze_dependencies`: the
`"module"` key is added only on the external branch, hence the doubled
option (`none` = key absent, `some m` = key present with value `m`). -/
structure DepEntry where
  id : String
  name : String
  type : String
  module : Option (Option String)
deriving DecidableEq

/-- The result dict of `analyze_dependencies`; the not-found dict carries
the `"error"` key together with the six empty collections. -/
structure DepAnalysis where
  error : Option String
  internal_dependencies : List DepEntry
  external_dependencies : List DepEntry
  internal_dependents : List DepEntry
  external_dependents : List DepEntry
  dependency_modules : List String
  dependent_modules : List String
deriving DecidableEq

/-- Python `set.add` on the module set, with the final `sorted(...)`
applied separately: keep first occurrences only. -/
def setAdd (l : List String) (x : String) : List String :=
  if x ∈ l then l else l ++ [x]

/-- Insertion step of a stable ascending sort, modelling Python
`sorted` on the (distinct) elements of a set of strings. -/
def insertSorted (x : String) : List String → List String
  | [] => [x]
  | y :: ys => if x ≤ y then x :: y :: ys else y :: insertSorted x ys

/-- Python `sorted` over the collected distinct module names. -/
def sortStrings (l : List String) : List String :=
  l.foldr insertSorted []

/-- The shared body of the two classification loops of
`analyze_dependencies` (the `depends_on` and `depended_by` loops are
textually identical up to naming): for each id found in the component map,
append its entry to the internal list when its `module` equals the queried
component's `module`, otherwise append the entry (with the `"module"` key
set) to the external list and, when the module is truthy (a nonempty
string), add it to the module set. -/
def classifyIds (cm : List (String × ComponentRecord)) (compModule : Option String)
    (ids : List String)
    (acc : List DepEntry × List DepEntry × List String) :
    List DepEntry × List DepEntry × List String :=
  ids.foldl (fun acc depId =>
    match dlookup cm depId with
    | none => acc
    | some dc =>
        if dc.module = compModule then
          (acc.1 ++ [⟨depId, dc.name, dc.component_type, none⟩], acc.2.1, acc.2.2)
        else
          (acc.1, acc.2.1 ++ [⟨depId, dc.name, dc.component_type, some dc.module⟩],
            match dc.module with
            | some m => if m = "" then acc.2.2 else setAdd acc.2.2 m
            | none => acc.2.2)) acc

/-- Embeds `analyze_dependencies(component_id)`: an empty component map is falsy
in Python, but then the membership test fails as well, so the guard is
equivalent to the id being absent. -/
def analyze_dependencies (cm : List (String × ComponentRecord))
    (component_id : String) : DepAnalysis :=
  match dlookup cm component_id with
  | none =>
      { error := some ("Component " ++ component_id ++ " not found")
        internal_dependencies := []
        external_dependencies := []
        internal_dependents := []
        external_dependents := []
        dependency_modules := []
        dependent_modules := [] }
  | some ci =>
      let deps := classifyIds cm ci.module ci.depends_on ([], [], [])
      let dependents := classifyIds cm ci.module ci.depended_by ([], [], [])
      { error := none
        internal_dependencies := deps.1
        external_dependencies := deps.2.1
        internal_dependents := dependents.1
        external_dependents := dependents.2.1
        dependency_modules := sortStrings deps.2.2
        dependent_modules := sortStrings dependents.2.2 }

/-- One `{"from": ..., "to": ..., "type": "depends_on"}` internal-edge dict
of `analyze_module_dependencies` (`type` is the constant `"depends_on"`,
omitted from the record). -/
structure ModEdge where
  fromC : String
  toC : String
deriving DecidableEq

/-- One `{"from_component": ..., "to_component": ...}` relationship pair. -/
structure RelPair where
  from_component : String
  to_component : String
deriving DecidableEq

/-- The `complexity` sub-record; `cohesion_score` embeds the Python float
division as exact rational division. -/
structure Complexity where
  component_count : Nat
  internal_edge_count : Nat
  external_edge_count : Nat
  cohesion_score : ℚ
deriving DecidableEq

/-- The success result of `analyze_module_dependencies`. The grouped
external lists keep the `(module, relationships)` pairs in first-touch
order, exactly the items of the two `defaultdict(list)` maps. -/
structure ModuleAnalysis where
  module : String
  components : List String
  internal_dependencies : List ModEdge
  external_dependencies : List (String × List RelPair)
  external_dependents : List (String × List RelPair)
  complexity : Complexity
deriving DecidableEq

/-- The mutable loop state of `analyze_module_dependencies`:
`internal_deps`, `external_deps_by_module`, `external_dependents_by_module`. -/
structure ModState where
  internal : List ModEdge
  ext : List (String × List RelPair)
  extDep : List (String × List RelPair)

/-- The `depends_on` inner loop of `analyze_module_dependencies`: for each
target found in the component map, an internal edge when the target module
equals the queried path, an external relationship grouped under the target
module when that module is truthy (`elif dep_module:`), and nothing
otherwise. -/
def modDepsLoop (cm : List (String × ComponentRecord)) (module_path : String)
    (comp_id : String) (ids : List String) (st : ModState) : ModState :=
  ids.foldl (fun st dep_id =>
    match dlookup cm dep_id with
    | none => st
    | some dc =>
        if dc.module = some module_path then
          { st with internal := st.internal ++ [⟨comp_id, dep_id⟩] }
        else
          match dc.module with
          | some dm =>
              if dm = "" then st
              else { st with ext := dappend st.ext dm ⟨comp_id, dep_id⟩ }
          | none => st) st

/-- The `depended_by` inner loop of `analyze_module_dependencies`: only
sources with a truthy module different from the queried path are recorded
(`if dependent_module and dependent_module != module_path:`). -/
def modDependentsLoop (cm : List (String × ComponentRecord)) (module_path : String)
    (comp_id : String) (ids : List String) (st : ModState) : ModState :=
  ids.foldl (fun st dependent_id =>
    match dlookup cm dependent_id with
    | none => st
    | some pc =>
        match pc.module with
        | some pm =>
            if pm = "" then st
            else if pm = module_path then st
            else { st with extDep := dappend st.extDep pm ⟨dependent_id, comp_id⟩ }
        | none => st) st

/-- The outer loop of `analyze_module_dependencies` over the module's
component list; components absent from the component map are skipped
(`continue`; the empty-map falsiness test is subsumed by the lookup). -/
def modLoop (cm : List (String × ComponentRecord)) (module_path : String)
    (comps : List String) (st : ModState) : ModState :=
  comps.foldl (fun st comp_id =>
    match dlookup cm comp_id with
    | none => st
    | some ci =>
        modDependentsLoop cm module_path comp_id ci.depended_by
          (modDepsLoop cm module_path comp_id ci.depends_on st)) st

/-- Embeds `analyze_module_dependencies(module_path)`: `.error` models the
`{"error": ...}` dict returned for an unknown module (`self.parsed_tree` is
a five-key dict, hence always truthy). -/
def analyze_module_dependencies (pt : ParsedTree) (cm : List (String × ComponentRecord))
    (module_path : String) : Except String ModuleAnalysis :=
  match dlookup pt.modules module_path with
  | none => .error ("Module " ++ module_path ++ " not found")
  | some mi =>
      let st := modLoop cm module_path mi.components ⟨[], [], []⟩
      let internal_edge_count := st.internal.length
      let external_edge_count := (st.ext.map (fun e => e.2.length)).sum
      let total_edges := internal_edge_count + external_edge_count
      .ok
        { module := module_path
          components := mi.components
          internal_dependencies := st.internal
          external_dependencies := st.ext
          external_dependents := st.extDep
          complexity :=
            { component_count := mi.components.length
              internal_edge_count := internal_edge_count
              external_edge_count := external_edge_count
              cohesion_score :=
                if 0 < total_edges then
                  (internal_edge_count : ℚ) / (total_edges : ℚ)
                else 0 } }

/-- Python `pattern in name_lower`: contiguous substring test over the
character lists. -/
def strContains (s pat : String) : Bool :=
  (List.range (s.data.length + 1)).any (fun i => pat.data.isPrefixOf (s.data.drop i))

/-- The `role_patterns` table of `infer_component_purpose` in dict
insertion order: fragment, role, confidence, description. -/
def role_patterns : List (String × String × ℚ × String) :=
  [("manager", "manager", 4/5, "manages resources or lifecycle"),
   ("service", "service", 4/5, "provides business logic"),
   ("generator", "generator", 4/5, "object creation or construction"),
   ("builder", "generator", 4/5, "object creation or construction"),
   ("analyzer", "analyzer", 4/5, "data analysis or transformation"),
   ("parser", "analyzer", 4/5, "data analysis or transformation"),
   ("handler", "processor", 7/10, "event handling or data processing"),
   ("processor", "processor", 7/10, "event handling or data processing"),
   ("adapter", "adapter", 4/5, "interface adaptation or wrapping"),
   ("wrapper", "adapter", 4/5, "interface adaptation or wrapping"),
   ("model", "model", 7/10, "data structure or entity"),
   ("entity", "model", 7/10, "data structure or entity"),
   ("dto", "model", 7/10, "data structure or entity"),
   ("util", "utility", 7/10, "helper functions"),
   ("helper", "utility", 7/10, "helper functions"),
   ("config", "configuration", 4/5, "configuration management"),
   ("settings", "configuration", 4/5, "configuration management")]

/-- The result record of `infer_component_purpose` (the `metrics`
sub-dict is flattened into the three `metrics_*` fields). -/
structure PurposeResult where
  primary_purpose : String
  role : String
  confidence : ℚ
  reasoning : List String
  metrics_dependencies : Nat
  metrics_dependents : Nat
  metrics_type : String
deriving DecidableEq

/-- Embeds `_generate_purpose_description(name, role, comp_type, ...)`. -/
def generate_purpose_description (name : String) (role : String)
    (comp_type : String) : String :=
  if role = "manager" then name ++ " manages lifecycle and resources"
  else if role = "service" then name ++ " provides business logic and operations"
  else if role = "generator" then name ++ " creates or constructs objects/data"
  else if role = "analyzer" then name ++ " analyzes or transforms data"
  else if role = "processor" then name ++ " processes data or handles events"
  else if role = "adapter" then name ++ " adapts or wraps external interfaces"
  else if role = "model" then name ++ " represents data structure or entity"
  else if role = "utility" then name ++ " provides helper functions"
  else if role = "configuration" then name ++ " manages configuration settings"
  else if role = "controller" then name ++ " orchestrates operations"
  else name ++ " (" ++ comp_type ++ ")"

/-- Embeds `infer_component_purpose(component_id)`: first matching name fragment
fixes role and confidence (`break`); the dependency-count branches change
the role only when it is still `"unknown"` but always append their note;
the dependent-count branches only append notes. -/
def infer_component_purpose (cm : List (String × ComponentRecord))
    (component_id : String) : Except String PurposeResult :=
  match dlookup cm component_id with
  | none => .error ("Component " ++ component_id ++ " not found")
  | some ci =>
      let name := ci.name
      let comp_type := ci.component_type
      let dep_count := ci.dependency_count
      let dependent_count := ci.dependent_count
      let name_lower := strLower name
      let afterPattern :=
        match role_patterns.find? (fun e => strContains name_lower e.1) with
        | some (pat, r, c, desc) =>
            (r, c, ["Name contains \x22" ++ pat ++ "\x22 - likely " ++ desc])
        | none => ("unknown", 1/2, [])
      let afterDeps :=
        if dep_count = 0 then
          ((if afterPattern.1 = "unknown" then ("model", (3/5 : ℚ))
            else (afterPattern.1, afterPattern.2.1)),
           afterPattern.2.2 ++
             ["No dependencies - likely a data model, constant, or utility"])
        else if 10 < dep_count then
          ((if afterPattern.1 = "unknown" then ("controller", (3/5 : ℚ))
            else (afterPattern.1, afterPattern.2.1)),
           afterPattern.2.2 ++
             ["Many dependencies (" ++ toString dep_count ++
              ") - likely an orchestrator or controller"])
        else ((afterPattern.1, afterPattern.2.1), afterPattern.2.2)
      let reasoning :=
        if dependent_count = 0 then
          afterDeps.2 ++ ["No dependents - possibly an entry point or unused component"]
        else if 10 < dependent_count then
          afterDeps.2 ++ ["Many dependents (" ++ toString dependent_count ++
                          ") - likely a core/shared component"]
        else afterDeps.2
      .ok
        { primary_purpose := generate_purpose_description name afterDeps.1.1 comp_type
          role := afterDeps.1.1
          confidence := afterDeps.1.2
          reasoning := reasoning
          metrics_dependencies := dep_count
          metrics_dependents := dependent_count
          metrics_type := comp_type }

/-- The `summary` sub-record of `generate_analysis_report`. -/
structure ReportSummary where
  path : String
  component_count : Nat
  is_leaf : Bool
  level : Nat
  has_children : Bool

/-- One per-component entry of the report's `components` dict. -/
structure ComponentReport where
  info : ComponentRecord
  dependencies : DepAnalysis
  purpose : Except String PurposeResult

/-- The success result of `generate_analysis_report`; `complexity` is
`none` when the inner module analysis returned its error dict, modelling
`module_analysis.get("complexity", {})` (that branch is unreachable after
the module-existence guard, but kept faithful to the source). -/
structure AnalysisReport where
  module : String
  summary : ReportSummary
  dependencies : List (String × List RelPair)
  dependents : List (String × List RelPair)
  complexity : Option Complexity
  components : List (String × ComponentReport)

/-- Embeds `generate_analysis_report(module_path)`: the unknown-module guard
returns the `{"error": ...}` dict; otherwise assemble the summary, the
module-level analysis (via `.get` with empty defaults) and the
per-component analyses, skipping components absent from the component map. -/
def generate_analysis_report (pt : ParsedTree) (cm : List (String × ComponentRecord))
    (module_path : String) : Except String AnalysisReport :=
  match dlookup pt.modules module_path with
  | none => .error ("Module " ++ module_path ++ " not found")
  | some mi =>
      let module_analysis := analyze_module_dependencies pt cm module_path
      .ok
        { module := module_path
          summary :=
            { path := module_path
              component_count := mi.components.length
              is_leaf := mi.is_leaf
              level := mi.level
              has_children := !mi.children.isEmpty }
          dependencies :=
            match module_analysis with
            | .ok r => r.external_dependencies
            | .error _ => []
          dependents :=
            match module_analysis with
            | .ok r => r.external_dependents
            | .error _ => []
          complexity :=
            match module_analysis with
            | .ok r => some r.complexity
            | .error _ => none
          components :=
            mi.components.foldl (fun acc comp_id =>
              match dlookup cm comp_id with
              | none => acc
              | some ci =>
                  dinsert acc comp_id
                    { info := ci
                      dependencies := analyze_dependencies cm comp_id
                      purpose := infer_component_purpose cm comp_id }) [] }

/-- The success record of `get_repository_summary`. -/
structure RepoSummary where
  total_modules : Nat
  leaf_modules : Nat
  parent_modules : Nat
  root_modules : Nat
  total_components : Nat
  max_depth : Nat
  processing_order_levels : Nat
deriving DecidableEq

/-- The three possible outcomes of `get_repository_summary`: the
`{"error": "Data not parsed"}` dict, an uncaught `ValueError` raised by
`max()` over an empty module map, or the summary record. -/
inductive RepoSummaryResult where
  | errorResult (msg : String)
  | raised
  | summary (s : RepoSummary)
deriving DecidableEq

/-- Embeds `get_repository_summary()`: `self.parsed_tree` is a five-key dict and
hence always truthy after construction, so the guard
`not self.parsed_tree or not self.component_map` reduces to the component
map being empty (empty dicts are falsy); with a nonempty component map but
an empty module map, `max()` over the module levels raises. -/
def get_repository_summary (pt : ParsedTree) (cm : List (String × ComponentRecord)) :
    RepoSummaryResult :=
  if cm.isEmpty then .errorResult "Data not parsed"
  else
    match get_processing_order pt with
    | none => .raised
    | some order =>
        .summary
          { total_modules := pt.modules.length
            leaf_modules := pt.leaf_modules.length
            parent_modules := pt.parent_modules.length
            root_modules := pt.root_modules.length
            total_components := cm.length
            max_depth := maxLevel pt
            processing_order_levels := order.length }

/-- Specification-side list of internal entries for one classification loop
of `analyze_dependencies` (refinement target, written from the spec's
words): the in-map targets whose module equals the queried component's
module (`None == None` included), in input order. -/
def internalEntriesSpec (cm : List (String × ComponentRecord))
    (compModule : Option String) (ids : List String) : List DepEntry :=
  ids.filterMap (fun d =>
    match dlookup cm d with
    | some dc =>
        if dc.module = compModule then some ⟨d, dc.name, dc.component_type, none⟩ else none
    | none => none)

/-- Specification-side list of external entries: the in-map targets whose
module differs from the queried component's module, each carrying its
`"module"` key. -/
def externalEntriesSpec (cm : List (String × ComponentRecord))
    (compModule : Option String) (ids : List String) : List DepEntry :=
  ids.filterMap (fun d =>
    match dlookup cm d with
    | some dc =>
        if dc.module = compModule then none
        else some ⟨d, dc.name, dc.component_type, some dc.module⟩
    | none => none)

/-- Classification of a single `depends_on` target `d` of `comp_id` as an
internal edge of module `mp`: `some` exactly when `d` is in the map with
module equal to `mp`. -/
def intEdgeF (cm : List (String × ComponentRecord)) (mp comp_id d : String) :
    Option ModEdge :=
  match dlookup cm d with
  | some dc => if dc.module = some mp then some ⟨comp_id, d⟩ else none
  | none => none

/-- Classification of a single `depends_on` target `d` of `comp_id` as an
external relationship under target module `dm`: `some` exactly when `d` is
in the map with module equal to `dm`. -/
def extEdgeF (cm : List (String × ComponentRecord)) (dm comp_id d : String) :
    Option RelPair :=
  match dlookup cm d with
  | some dc => if dc.module = some dm then some ⟨comp_id, d⟩ else none
  | none => none

/-- Specification-side internal edge list of `analyze_module_dependencies`:
for each owned component found in the map, its in-map `depends_on` targets
whose module equals the queried path. -/
def internalEdgesSpec (cm : List (String × ComponentRecord)) (mp : String)
    (comps : List String) : List ModEdge :=
  comps.flatMap (fun c =>
    match dlookup cm c with
    | none => []
    | some ci => ci.depends_on.filterMap (intEdgeF cm mp c))

/-- Specification-side relationship list grouped under one target module
`dm`: empty when `dm` is empty or is the queried path itself, else the
in-map edges whose target is assigned to `dm`. -/
def externalRelSpec (cm : List (String × ComponentRecord)) (mp : String)
    (comps : List String) (dm : String) : List RelPair :=
  if dm = "" ∨ dm = mp then []
  else
    comps.flatMap (fun c =>
      match dlookup cm c with
      | none => []
      | some ci => ci.depends_on.filterMap (extEdgeF cm dm c))

/-- Lookup in a grouped relationship list, empty when the key is absent
(Python `defaultdict` read semantics for inspection). -/
def lookupRel {α : Type} (d : List (String × List α)) (k : String) : List α :=
  (dlookup d k).getD []

/-- Holds when `c` is recorded as a direct child of `p` in the parsed module map. -/
def parentOf (pt : ParsedTree) (c p : String) : Prop :=
  ∃ m, dlookup pt.modules c = some m ∧ m.parent = some p

/-- Holds when `q` is a descendant module of `p`: the parent chain from `q` reaches
`p` in one or more steps. -/
inductive IsDesc (pt : ParsedTree) : String → String → Prop where
  | base {c p : String} : parentOf pt c p → IsDesc pt c p
  | step {c q p : String} : parentOf pt c q → IsDesc pt q p → IsDesc pt c p

/-- The descending list of levels that hold at least one module: the
levels whose batches `get_processing_order` returns, deepest first. -/
def descLevels (pt : ParsedTree) : List Nat :=
  ((List.range (maxLevel pt + 1)).reverse).filter (fun lvl => !(atLevel pt lvl).isEmpty)

/-- Index of the batch containing module path `p` (list length when `p`
appears in no batch). -/
def batchIdx (order : List (List String)) (p : String) : Nat :=
  order.findIdx (fun b => b.contains p)

/-- An all-defaults component record, used only to name looked-up records
in closed witness statements. -/
def defaultRecord : ComponentRecord :=
  initRecord "" ⟨none, none, none, none, none, none⟩

/-- Example module tree from the specification's scenario:
`{"a": {"components": ["a.X"], "children": {"a/b": {"components": ["a.b.Y"], "children": {}}}}}`. -/
def tEx : MForest :=
  .cons "a" (.node ["a.X"] (.cons "a/b" (.node ["a.b.Y"] .nil) .nil)) .nil

/-- Parsed form of `tEx`. -/
def ptEx : ParsedTree := parse_module_tree tEx

/-- Example dependency graph from the specification's scenario. -/
def gEx : List (String × CompData) :=
  [("a.X", ⟨none, none, none, none, none, some ["a.b.Y"]⟩),
   ("a.b.Y", ⟨none, none, none, none, none, some []⟩)]

/-- Component map for the scenario inputs, after reverse indexing. -/
def cmEx : List (String × ComponentRecord) :=
  build_reverse (build_component_map gEx ptEx)

/-- The record of `"a.X"` in `cmEx`. -/
def ciEx : ComponentRecord := (dlookup cmEx "a.X").getD defaultRecord

/-- The record of `"a.b.Y"` in `cmEx`. -/
def cyEx : ComponentRecord := (dlookup cmEx "a.b.Y").getD defaultRecord

/-- A module tree in which the same path key `"a"` occurs both at the top
level and as a child key, so the traversal overwrites `modules["a"]` with
the nested visit. -/
def tDup : MForest := .cons "a" (.node [] (.cons "a" (.node [] .nil) .nil)) .nil

/-- Parsed form of `tDup`. -/
def ptDup : ParsedTree := parse_module_tree tDup

/-- Dependency graph realizing the `"UserManager"` scenario: zero
dependencies and three dependents. -/
def gUM : List (String × CompData) :=
  [("m.UserManager", ⟨none, none, none, none, none, some []⟩),
   ("c1", ⟨none, none, none, none, none, some ["m.UserManager"]⟩),
   ("c2", ⟨none, none, none, none, none, some ["m.UserManager"]⟩),
   ("c3", ⟨none, none, none, none, none, some ["m.UserManager"]⟩)]

/-- Component map for the `"UserManager"` scenario (no module tree). -/
def cmUM : List (String × ComponentRecord) :=
  build_reverse (build_component_map gUM (parse_module_tree .nil))

/-- A one-module tree owning component `"X"`. -/
def tMod : MForest := .cons "m" (.node ["X"] .nil) .nil

/-- Parsed form of `tMod`. -/
def ptMod : ParsedTree := parse_module_tree tMod

/-- Graph in which `"X"` (owned by module `"m"`) depends on `"Y"`, and
`"Y"` is present in the graph but owned by no module. -/
def gMod : List (String × CompData) :=
  [("X", ⟨none, none, none, none, none, some ["Y"]⟩),
   ("Y", ⟨none, none, none, none, none, some []⟩)]

/-- Component map for `gMod`/`tMod`. -/
def cmMod : List (String × ComponentRecord) :=
  build_reverse (build_component_map gMod ptMod)

/-- The module-analysis record for `"a/b"` over the scenario inputs, used
to name the analysis result in closed witness statements. -/
def maEx : ModuleAnalysis :=
  (analyze_module_dependencies ptEx cmEx "a/b").toOption.getD
    ⟨"", [], [], [], [], ⟨0, 0, 0, 0⟩⟩

/-- The module record of `"a"` in `ptEx`, for witness statements. -/
def miEx : ParsedModule :=
  (dlookup ptEx.modules "a").getD ⟨"", [], .nil, none, true, 0⟩

/-- The module record of `"a/b"` in `ptEx`, for witness statements. -/
def mbEx : ParsedModule :=
  (dlookup ptEx.modules "a/b").getD ⟨"", [], .nil, none, true, 0⟩

/-! ### Shared dictionary lemmas -/

theorem dlookup_dinsert {α : Type} (d : List (String × α)) (k k' : String) (v : α) :
    dlookup (dinsert d k v) k' = if k = k' then some v else dlookup d k' := by
  induction d with
  | nil => simp [dinsert, dlookup]
  | cons e rest ih =>
      obtain ⟨ek, ev⟩ := e
      by_cases h : ek = k
      · subst h
        rw [dinsert, if_pos rfl]
        by_cases h' : ek = k' <;> simp [dlookup, h']
      · rw [dinsert, if_neg h]
        by_cases h' : ek = k'
        · subst h'
          have hk : ¬ k = ek := fun hh => h hh.symm
          simp [dlookup, hk]
        · simp [dlookup, h', ih]

theorem dlookup_map_value {α β : Type} (g : String → α → β)
    (l : List (String × α)) (k : String) :
    dlookup (l.map (fun e => (e.1, g e.1 e.2))) k = (dlookup l k).map (g k) := by
  induction l with
  | nil => simp [dlookup]
  | cons e rest ih =>
      obtain ⟨ek, ev⟩ := e
      by_cases h : ek = k
      · subst h; simp [dlookup]
      · simp [dlookup, h, ih]

theorem dlookup_isNone_of_not_mem {α : Type} (d : List (String × α)) (k : String)
    (h : k ∉ d.map Prod.fst) : dlookup d k = none := by
  induction d with
  | nil => simp [dlookup]
  | cons e rest ih =>
      simp only [List.map_cons, List.mem_cons] at h
      push_neg at h
      have hk : ¬ e.1 = k := fun hh => h.1 hh.symm
      rw [dlookup, if_neg hk]
      exact ih h.2

/-! ### Claim C8: absent ids yield error-flagged results, no exception -/

/-- C8: for a component id absent from the component map and a module path
absent from the parsed tree, `analyze_dependencies` returns the
error-flagged record with all six collections empty, and
`analyze_module_dependencies`, `infer_component_purpose` and
`generate_analysis_report` return their `{"error": ...}` records; all four
are total functions of the embedding, so no exception is raised. -/
theorem lookup_miss_error_results (pt : ParsedTree) (cm : List (String × ComponentRecord))
    (cid mp : String) (hc : dlookup cm cid = none) (hm : dlookup pt.modules mp = none) :
    analyze_dependencies cm cid =
      ⟨some ("Component " ++ cid ++ " not found"), [], [], [], [], [], []⟩
    ∧ analyze_module_dependencies pt cm mp = .error ("Module " ++ mp ++ " not found")
    ∧ infer_component_purpose cm cid = .error ("Component " ++ cid ++ " not found")
    ∧ generate_analysis_report pt cm mp = .error ("Module " ++ mp ++ " not found") := by
  refine ⟨?_, ?_, ?_, ?_⟩
  · rw [analyze_dependencies, hc]
  · rw [analyze_module_dependencies, hm]
  · rw [infer_component_purpose, hc]
  · rw [generate_analysis_report, hm]

/-- Witness for C8 at the scenario inputs with unknown ids. -/
theorem lookup_miss_error_results_witness :
    analyze_dependencies cmEx "ghost" =
      ⟨some "Component ghost not found", [], [], [], [], [], []⟩
    ∧ analyze_module_dependencies ptEx cmEx "zz" = .error "Module zz not found"
    ∧ infer_component_purpose cmEx "ghost" = .error "Component ghost not found"
    ∧ generate_analysis_report ptEx cmEx "zz" = .error "Module zz not found" :=
  lookup_miss_error_results ptEx cmEx "ghost" "zz" rfl rfl

/-! ### Claim C10: behavior on an empty parsed module set -/

/-- C10 counterexample: with an empty module tree and an empty dependency
graph, `get_processing_order` does raise (`none` models the `ValueError`
of `max()`), but `get_repository_summary` hits the falsiness guard on the
empty component map first and returns the `{"error": "Data not parsed"}`
record without raising, contradicting the claim that it raises. -/
theorem empty_summary_returns_error_not_raise :
    (parse_module_tree MForest.nil).modules = []
    ∧ get_processing_order (parse_module_tree MForest.nil) = none
    ∧ get_repository_summary (parse_module_tree MForest.nil) [] =
        .errorResult "Data not parsed" :=
  ⟨rfl, rfl, rfl⟩

/-- C10 (amended): when the parsed module set is empty,
`get_processing_order` always raises, while `get_repository_summary`
raises only when the component map is nonempty; with an empty component
map it returns the `{"error": "Data not parsed"}` record instead. -/
theorem empty_module_map_behavior (pt : ParsedTree) (cm : List (String × ComponentRecord))
    (h : pt.modules = []) :
    get_processing_order pt = none
    ∧ (cm = [] → get_repository_summary pt cm = .errorResult "Data not parsed")
    ∧ (cm ≠ [] → get_repository_summary pt cm = .raised) := by
  have h1 : get_processing_order pt = none := by rw [get_processing_order, h]
  refine ⟨h1, ?_, ?_⟩
  · intro hcm
    rw [get_repository_summary, hcm]
    rfl
  · intro hcm
    rw [get_repository_summary, if_neg (by simpa [List.isEmpty_iff] using hcm), h1]

/-- Witness for C10 (amended): the empty tree with the nonempty
`UserManager` component map makes the summary raise, and with the empty
component map it yields the error record. -/
theorem empty_module_map_behavior_witness :
    get_processing_order (parse_module_tree MForest.nil) = none
    ∧ get_repository_summary (parse_module_tree MForest.nil) cmUM = .raised
    ∧ get_repository_summary (parse_module_tree MForest.nil) [] =
        .errorResult "Data not parsed" :=
  ⟨(empty_module_map_behavior (parse_module_tree MForest.nil) cmUM rfl).1,
   (empty_module_map_behavior (parse_module_tree MForest.nil) cmUM rfl).2.2 (by decide),
   (empty_module_map_behavior (parse_module_tree MForest.nil) [] rfl).2.1 rfl⟩

/-! ### Claim C9: the `"UserManager"` scenario -/

/-- C9 counterexample: for `"m.UserManager"` (name `"UserManager"`, zero
dependencies, three dependents) the reasoning list holds exactly the
name-pattern note and the no-dependencies note; neither of the two
dependents-count notes that `infer_component_purpose` can emit
(`"No dependents ..."` for zero, `"Many dependents ..."` for more than
ten) is present, so the claim that the reasoning includes a
dependents-count note is false. -/
theorem userManager_no_dependents_note :
    (infer_component_purpose cmUM "m.UserManager").toOption.map PurposeResult.reasoning
      = some ["Name contains \x22manager\x22 - likely manages resources or lifecycle",
              "No dependencies - likely a data model, constant, or utility"]
    ∧ (infer_component_purpose cmUM "m.UserManager").toOption.map
        PurposeResult.metrics_dependencies = some 0
    ∧ (infer_component_purpose cmUM "m.UserManager").toOption.map
        PurposeResult.metrics_dependents = some 3
    ∧ "No dependents - possibly an entry point or unused component" ∉
        ["Name contains \x22manager\x22 - likely manages resources or lifecycle",
         "No dependencies - likely a data model, constant, or utility"]
    ∧ "Many dependents (3) - likely a core/shared component" ∉
        ["Name contains \x22manager\x22 - likely manages resources or lifecycle",
         "No dependencies - likely a data model, constant, or utility"] := by
  refine ⟨by decide, by decide, by decide, by decide, by decide⟩

/-- C9 (amended): the `"UserManager"` component with zero dependencies and
three dependents gets role `"manager"` with confidence `0.8`; the
reasoning includes a dependency-count note (the no-dependencies note)
rather than a dependents-count note, and the role is unaffected by the
dependency count because the name-fragment match came first. -/
theorem userManager_role_manager :
    (infer_component_purpose cmUM "m.UserManager").toOption.map PurposeResult.role
      = some "manager"
    ∧ (infer_component_purpose cmUM "m.UserManager").toOption.map
        PurposeResult.confidence = some (4/5)
    ∧ (infer_component_purpose cmUM "m.UserManager").toOption.map (fun r =>
        decide ("No dependencies - likely a data model, constant, or utility"
          ∈ r.reasoning)) = some true
    ∧ (infer_component_purpose cmUM "m.UserManager").toOption.map
        PurposeResult.metrics_dependencies = some 0
    ∧ (infer_component_purpose cmUM "m.UserManager").toOption.map
        PurposeResult.metrics_dependents = some 3 := by
  refine ⟨by decide, rfl, by decide, by decide, by decide⟩

/-! ### Claim C1: internal/external classification in `analyze_dependencies` -/

theorem classifyIds_spec (cm : List (String × ComponentRecord)) (cmod : Option String) :
    ∀ (ids : List String) (acc : List DepEntry × List DepEntry × List String),
      (classifyIds cm cmod ids acc).1 = acc.1 ++ internalEntriesSpec cm cmod ids ∧
      (classifyIds cm cmod ids acc).2.1 = acc.2.1 ++ externalEntriesSpec cm cmod ids := by
  intro ids
  induction ids with
  | nil =>
      intro acc
      simp [classifyIds, internalEntriesSpec, externalEntriesSpec]
  | cons d rest ih =>
      intro acc
      have hstep : classifyIds cm cmod (d :: rest) acc =
          classifyIds cm cmod rest
            (match dlookup cm d with
             | none => acc
             | some dc =>
                 if dc.module = cmod then
                   (acc.1 ++ [⟨d, dc.name, dc.component_type, none⟩], acc.2.1, acc.2.2)
                 else
                   (acc.1, acc.2.1 ++ [⟨d, dc.name, dc.component_type, some dc.module⟩],
                     match dc.module with
                     | some m => if m = "" then acc.2.2 else setAdd acc.2.2 m
                     | none => acc.2.2)) := by
        simp [classifyIds, List.foldl_cons]
      rw [hstep]
      cases hd : dlookup cm d with
      | none =>
          simp only [internalEntriesSpec, externalEntriesSpec, List.filterMap_cons, hd]
          exact ih acc
      | some dc =>
          by_cases hm : dc.module = cmod
          · simp only [internalEntriesSpec, externalEntriesSpec, List.filterMap_cons, hd,
              if_pos hm]
            obtain ⟨h1, h2⟩ := ih (acc.1 ++ [⟨d, dc.name, dc.component_type, none⟩],
              acc.2.1, acc.2.2)
            constructor
            · rw [h1]; simp [internalEntriesSpec]
            · rw [h2]; simp [externalEntriesSpec]
          · simp only [internalEntriesSpec, externalEntriesSpec, List.filterMap_cons, hd,
              if_neg hm]
            obtain ⟨h1, h2⟩ := ih (acc.1,
              acc.2.1 ++ [⟨d, dc.name, dc.component_type, some dc.module⟩],
              match dc.module with
              | some m => if m = "" then acc.2.2 else setAdd acc.2.2 m
              | none => acc.2.2)
            constructor
            · rw [h1]; simp [internalEntriesSpec]
            · rw [h2]; simp [externalEntriesSpec]

theorem mem_internalEntriesSpec (cm : List (String × ComponentRecord))
    (cmod : Option String) (ids : List String) (d : String) (dc : ComponentRecord)
    (h : dlookup cm d = some dc) :
    ((⟨d, dc.name, dc.component_type, none⟩ : DepEntry) ∈ internalEntriesSpec cm cmod ids
      ↔ d ∈ ids ∧ dc.module = cmod) := by
  constructor
  · intro hmem
    rw [internalEntriesSpec, List.mem_filterMap] at hmem
    obtain ⟨a, ha, hfa⟩ := hmem
    cases ha' : dlookup cm a with
    | none => rw [ha'] at hfa; simp at hfa
    | some ac =>
        rw [ha'] at hfa
        dsimp only at hfa
        by_cases hmod : ac.module = cmod
        · rw [if_pos hmod] at hfa
          have hid : a = d := congrArg DepEntry.id (Option.some.inj hfa)
          subst hid
          rw [h] at ha'
          have hrec : dc = ac := Option.some.inj ha'
          subst hrec
          exact ⟨ha, hmod⟩
        · rw [if_neg hmod] at hfa; simp at hfa
  · intro ⟨hd, hmod⟩
    rw [internalEntriesSpec, List.mem_filterMap]
    refine ⟨d, hd, ?_⟩
    rw [h]
    dsimp only
    rw [if_pos hmod]

theorem mem_externalEntriesSpec (cm : List (String × ComponentRecord))
    (cmod : Option String) (ids : List String) (d : String) (dc : ComponentRecord)
    (h : dlookup cm d = some dc) :
    ((⟨d, dc.name, dc.component_type, some dc.module⟩ : DepEntry) ∈
        externalEntriesSpec cm cmod ids
      ↔ d ∈ ids ∧ dc.module ≠ cmod) := by
  constructor
  · intro hmem
    rw [externalEntriesSpec, List.mem_filterMap] at hmem
    obtain ⟨a, ha, hfa⟩ := hmem
    cases ha' : dlookup cm a with
    | none => rw [ha'] at hfa; simp at hfa
    | some ac =>
        rw [ha'] at hfa
        dsimp only at hfa
        by_cases hmod : ac.module = cmod
        · rw [if_pos hmod] at hfa; simp at hfa
        · rw [if_neg hmod] at hfa
          have hid : a = d := congrArg DepEntry.id (Option.some.inj hfa)
          subst hid
          rw [h] at ha'
          have hrec : dc = ac := Option.some.inj ha'
          subst hrec
          exact ⟨ha, hmod⟩
  · intro ⟨hd, hmod⟩
    rw [externalEntriesSpec, List.mem_filterMap]
    refine ⟨d, hd, ?_⟩
    rw [h]
    dsimp only
    rw [if_neg hmod]

/-- C1: for a component present in the component map,
`analyze_dependencies` classifies each in-map `depends_on` target as
internal exactly when the target's module equals the queried component's
module — the equality is on `Option` values, so two `None` modules compare
equal and yield an internal classification — and as external in every
other case; the `depended_by` sources are classified the same way. The
four list equations give the full classification, the two equivalences
state the internal/external membership criterion. -/
theorem analyze_dependencies_classification (cm : List (String × ComponentRecord))
    (cid : String) (ci : ComponentRecord) (h : dlookup cm cid = some ci) :
    (analyze_dependencies cm cid).internal_dependencies =
        internalEntriesSpec cm ci.module ci.depends_on
    ∧ (analyze_dependencies cm cid).external_dependencies =
        externalEntriesSpec cm ci.module ci.depends_on
    ∧ (analyze_dependencies cm cid).internal_dependents =
        internalEntriesSpec cm ci.module ci.depended_by
    ∧ (analyze_dependencies cm cid).external_dependents =
        externalEntriesSpec cm ci.module ci.depended_by
    ∧ (∀ d dc, dlookup cm d = some dc →
        ((⟨d, dc.name, dc.component_type, none⟩ : DepEntry) ∈
            (analyze_dependencies cm cid).internal_dependencies
          ↔ d ∈ ci.depends_on ∧ dc.module = ci.module))
    ∧ (∀ d dc, dlookup cm d = some dc →
        ((⟨d, dc.name, dc.component_type, some dc.module⟩ : DepEntry) ∈
            (analyze_dependencies cm cid).external_dependencies
          ↔ d ∈ ci.depends_on ∧ dc.module ≠ ci.module)) := by
  have hres : ∀ sel : DepAnalysis → List DepEntry,
      sel (analyze_dependencies cm cid) = sel
        { error := none
          internal_dependencies := (classifyIds cm ci.module ci.depends_on ([], [], [])).1
          external_dependencies := (classifyIds cm ci.module ci.depends_on ([], [], [])).2.1
          internal_dependents := (classifyIds cm ci.module ci.depended_by ([], [], [])).1
          external_dependents := (classifyIds cm ci.module ci.depended_by ([], [], [])).2.1
          dependency_modules :=
            sortStrings (classifyIds cm ci.module ci.depends_on ([], [], [])).2.2
          dependent_modules :=
            sortStrings (classifyIds cm ci.module ci.depended_by ([], [], [])).2.2 } := by
    intro sel
    rw [analyze_dependencies, h]
  have h1 := (classifyIds_spec cm ci.module ci.depends_on ([], [], [])).1
  have h2 := (classifyIds_spec cm ci.module ci.depends_on ([], [], [])).2
  have h3 := (classifyIds_spec cm ci.module ci.depended_by ([], [], [])).1
  have h4 := (classifyIds_spec cm ci.module ci.depended_by ([], [], [])).2
  simp only [List.nil_append] at h1 h2 h3 h4
  have e1 : (analyze_dependencies cm cid).internal_dependencies =
      internalEntriesSpec cm ci.module ci.depends_on := by
    rw [hres DepAnalysis.internal_dependencies]; exact h1
  have e2 : (analyze_dependencies cm cid).external_dependencies =
      externalEntriesSpec cm ci.module ci.depends_on := by
    rw [hres DepAnalysis.external_dependencies]; exact h2
  have e3 : (analyze_dependencies cm cid).internal_dependents =
      internalEntriesSpec cm ci.module ci.depended_by := by
    rw [hres DepAnalysis.internal_dependents]; exact h3
  have e4 : (analyze_dependencies cm cid).external_dependents =
      externalEntriesSpec cm ci.module ci.depended_by := by
    rw [hres DepAnalysis.external_dependents]; exact h4
  refine ⟨e1, e2, e3, e4, ?_, ?_⟩
  · intro d dc hd
    rw [e1]
    exact mem_internalEntriesSpec cm ci.module ci.depends_on d dc hd
  · intro d dc hd
    rw [e2]
    exact mem_externalEntriesSpec cm ci.module ci.depends_on d dc hd

/-- Witness for C1 at the scenario inputs: `"a.X"` (module `"a"`) with its
in-map dependency `"a.b.Y"` (module `"a/b"`), classified external. -/
theorem analyze_dependencies_classification_witness :
    (analyze_dependencies cmEx "a.X").internal_dependencies =
        internalEntriesSpec cmEx ciEx.module ciEx.depends_on
    ∧ (analyze_dependencies cmEx "a.X").external_dependencies =
        externalEntriesSpec cmEx ciEx.module ciEx.depends_on
    ∧ ((⟨"a.b.Y", cyEx.name, cyEx.component_type, some cyEx.module⟩ : DepEntry) ∈
          (analyze_dependencies cmEx "a.X").external_dependencies
        ↔ "a.b.Y" ∈ ciEx.depends_on ∧ cyEx.module ≠ ciEx.module) :=
  ⟨(analyze_dependencies_classification cmEx "a.X" ciEx rfl).1,
   (analyze_dependencies_classification cmEx "a.X" ciEx rfl).2.1,
   (analyze_dependencies_classification cmEx "a.X" ciEx rfl).2.2.2.2.2
     "a.b.Y" cyEx rfl⟩

/-! ### Claim C3: cohesion score definition and bounds -/

theorem cohesion_if_bounds (i x : Nat) :
    0 ≤ (if 0 < i + x then (i : ℚ) / ((i + x : Nat) : ℚ) else 0)
    ∧ (if 0 < i + x then (i : ℚ) / ((i + x : Nat) : ℚ) else 0) ≤ 1 := by
  by_cases hpos : 0 < i + x
  · refine ⟨?_, ?_⟩ <;> rw [if_pos hpos]
    · exact div_nonneg (Nat.cast_nonneg _) (Nat.cast_nonneg _)
    · refine div_le_one_of_le₀ ?_ (Nat.cast_nonneg _)
      exact_mod_cast Nat.le_add_right i x
  · refine ⟨?_, ?_⟩ <;> rw [if_neg hpos]
    exact zero_le_one

/-- C3: every successful module analysis has
`cohesion_score = internal / (internal + external)` when the edge total is
positive, `0` when both counts are zero, and the score always lies in
`[0, 1]`. -/
theorem cohesion_score_spec (pt : ParsedTree) (cm : List (String × ComponentRecord))
    (mp : String) (r : ModuleAnalysis)
    (h : analyze_module_dependencies pt cm mp = .ok r) :
    r.complexity.cohesion_score =
      (if 0 < r.complexity.internal_edge_count + r.complexity.external_edge_count then
        (r.complexity.internal_edge_count : ℚ) /
          ((r.complexity.internal_edge_count + r.complexity.external_edge_count : Nat) : ℚ)
      else 0)
    ∧ 0 ≤ r.complexity.cohesion_score ∧ r.complexity.cohesion_score ≤ 1 := by
  cases hm : dlookup pt.modules mp with
  | none =>
      rw [analyze_module_dependencies, hm] at h
      exact absurd h (by simp)
  | some mi =>
      simp only [analyze_module_dependencies, hm, Except.ok.injEq] at h
      subst h
      exact ⟨rfl, cohesion_if_bounds _ _⟩

/-- Witness for C3 at the scenario inputs, module `"a/b"`. -/
theorem cohesion_score_spec_witness :
    maEx.complexity.cohesion_score =
      (if 0 < maEx.complexity.internal_edge_count + maEx.complexity.external_edge_count then
        (maEx.complexity.internal_edge_count : ℚ) /
          ((maEx.complexity.internal_edge_count + maEx.complexity.external_edge_count : Nat) : ℚ)
      else 0)
    ∧ 0 ≤ maEx.complexity.cohesion_score ∧ maEx.complexity.cohesion_score ≤ 1 :=
  cohesion_score_spec ptEx cmEx "a/b" maEx rfl

/-! ### Claim C6: reverse-index round trip and count invariants -/

theorem keys_dinsert {α : Type} (d : List (String × α)) (k : String) (v : α) :
    (dinsert d k v).map Prod.fst =
      if k ∈ d.map Prod.fst then d.map Prod.fst else d.map Prod.fst ++ [k] := by
  induction d with
  | nil => simp [dinsert]
  | cons e rest ih =>
      obtain ⟨ek, ev⟩ := e
      by_cases h : ek = k
      · subst h
        rw [dinsert, if_pos rfl]
        simp
      · rw [dinsert, if_neg h]
        have hne : ¬ k = ek := fun hh => h hh.symm
        simp only [List.map_cons, List.mem_cons, hne, false_or]
        by_cases hm : k ∈ rest.map Prod.fst
        · rw [if_pos hm, ih, if_pos hm]
        · rw [if_neg hm, ih, if_neg hm]
          simp

theorem nodup_keys_dinsert {α : Type} (d : List (String × α)) (k : String) (v : α)
    (h : (d.map Prod.fst).Nodup) : ((dinsert d k v).map Prod.fst).Nodup := by
  rw [keys_dinsert]
  by_cases hm : k ∈ d.map Prod.fst
  · rw [if_pos hm]; exact h
  · rw [if_neg hm]
    rw [List.nodup_append]
    exact ⟨h, List.nodup_singleton k, by
      intro a ha hb
      rw [List.mem_singleton] at hb
      subst hb
      exact hm ha⟩

theorem nodup_keys_foldl_dinsert {α β : Type} (F : String → β → α) :
    ∀ (l : List (String × β)) (d : List (String × α)),
      (d.map Prod.fst).Nodup →
      ((l.foldl (fun m e => dinsert m e.1 (F e.1 e.2)) d).map Prod.fst).Nodup := by
  intro l
  induction l with
  | nil => intro d h; simpa using h
  | cons e rest ih =>
      intro d h
      rw [List.foldl_cons]
      exact ih (dinsert d e.1 (F e.1 e.2)) (nodup_keys_dinsert d e.1 (F e.1 e.2) h)

theorem dlookup_foldl_dinsert_prop {α β : Type} (F : String → β → α) (P : α → Prop)
    (hF : ∀ k c, P (F k c)) :
    ∀ (l : List (String × β)) (d : List (String × α)),
      (∀ k r, dlookup d k = some r → P r) →
      ∀ k r, dlookup (l.foldl (fun m e => dinsert m e.1 (F e.1 e.2)) d) k = some r → P r := by
  intro l
  induction l with
  | nil => intro d hd k r h; exact hd k r h
  | cons e rest ih =>
      intro d hd k r h
      rw [List.foldl_cons] at h
      refine ih (dinsert d e.1 (F e.1 e.2)) ?_ k r h
      intro k' r' h'
      rw [dlookup_dinsert] at h'
      by_cases hk : e.1 = k'
      · rw [if_pos hk] at h'
        exact (Option.some.inj h') ▸ hF e.1 e.2
      · rw [if_neg hk] at h'
        exact hd k' r' h'

theorem keys_map_value {α β : Type} (g : String → α → β) (l : List (String × α)) :
    (l.map (fun e => (e.1, g e.1 e.2))).map Prod.fst = l.map Prod.fst := by
  induction l with
  | nil => rfl
  | cons e rest ih => simp [ih]

theorem mem_dependentsOf (cm : List (String × ComponentRecord)) (b a : String)
    (h : a ∈ dependentsOf cm b) : a ∈ cm.map Prod.fst := by
  rw [dependentsOf, List.mem_flatMap] at h
  obtain ⟨e, he, ha⟩ := h
  rw [List.mem_filterMap] at ha
  obtain ⟨d, _, hd⟩ := ha
  by_cases hdb : d = b
  · rw [if_pos hdb] at hd
    rw [← Option.some.inj hd]
    exact List.mem_map.mpr ⟨e, he, rfl⟩
  · rw [if_neg hdb] at hd
    exact absurd hd (by simp)

theorem count_filterMap_if (ids : List String) (b k a : String) :
    ((ids.filterMap (fun d => if d = b then some k else none)).count a) =
      if k = a then ids.count b else 0 := by
  induction ids with
  | nil => simp
  | cons d rest ih =>
      rw [List.filterMap_cons]
      by_cases hdb : d = b
      · rw [if_pos hdb]
        subst hdb
        rw [List.count_cons, ih, List.count_cons_self]
        by_cases hka : k = a
        · rw [if_pos hka, if_pos hka]
          subst hka
          simp
        · rw [if_neg hka, if_neg hka]
          simp [hka]
      · rw [if_neg hdb, ih]
        rw [List.count_cons]
        by_cases hka : k = a <;> simp [hka, hdb]

theorem count_dependentsOf :
    ∀ (cm : List (String × ComponentRecord)),
      ((cm.map Prod.fst).Nodup) →
      ∀ (a b : String) (ra : ComponentRecord), dlookup cm a = some ra →
      (dependentsOf cm b).count a = ra.depends_on.count b := by
  intro cm
  induction cm with
  | nil => intro _ a b ra h; rw [dlookup] at h; exact absurd h (by simp)
  | cons e rest ih =>
      intro hnd a b ra h
      rw [List.map_cons, List.nodup_cons] at hnd
      obtain ⟨hfresh, hndrest⟩ := hnd
      have hsplit : dependentsOf (e :: rest) b =
          (e.2.depends_on.filterMap (fun d => if d = b then some e.1 else none)) ++
            dependentsOf rest b := by
        rw [dependentsOf, List.flatMap_cons, dependentsOf]
      rw [hsplit, List.count_append]
      by_cases hk : e.1 = a
      · rw [dlookup, if_pos hk] at h
        have hra : ra = e.2 := (Option.some.inj h).symm
        subst hra
        rw [count_filterMap_if, if_pos hk]
        have hzero : (dependentsOf rest b).count a = 0 := by
          rw [List.count_eq_zero]
          intro hmem
          exact hfresh (hk ▸ mem_dependentsOf rest b a hmem)
        rw [hzero]
        omega
      · rw [dlookup, if_neg hk] at h
        rw [count_filterMap_if, if_neg hk, ih hndrest a b ra h]
        omega

/-- C6: in the component map produced by `build_component_map` followed by
`_build_reverse_dependencies` (`build_reverse`), every record's
`dependency_count` equals the length of its `depends_on` list and its
`dependent_count` equals the length of its `depended_by` list; and for any
two mapped components `a`, `b`, the number of occurrences of `a` in
`b.depended_by` equals the number of occurrences of `b` in `a.depends_on`
(one occurrence per edge, duplicates preserved). -/
theorem reverse_index_round_trip (g : List (String × CompData)) (pt : ParsedTree) :
    (∀ p r, dlookup (build_reverse (build_component_map g pt)) p = some r →
        r.dependency_count = r.depends_on.length ∧
        r.dependent_count = r.depended_by.length)
    ∧ (∀ a ra b rb,
        dlookup (build_reverse (build_component_map g pt)) a = some ra →
        dlookup (build_reverse (build_component_map g pt)) b = some rb →
        rb.depended_by.count a = ra.depends_on.count b) := by
  have hrev : ∀ k, dlookup (build_reverse (build_component_map g pt)) k =
      (dlookup (build_component_map g pt) k).map
        (fun r => { r with
          depended_by := dependentsOf (build_component_map g pt) k
          dependent_count := (dependentsOf (build_component_map g pt) k).length }) := by
    intro k
    rw [build_reverse]
    exact dlookup_map_value
      (fun k r => { r with
        depended_by := dependentsOf (build_component_map g pt) k
        dependent_count := (dependentsOf (build_component_map g pt) k).length })
      (build_component_map g pt) k
  have hcm1 : ∀ k, dlookup (build_component_map g pt) k =
      (dlookup (g.foldl (fun m e => dinsert m e.1 (initRecord e.1 e.2)) []) k).map
        (moduleAttach pt k) := by
    intro k
    rw [build_component_map]
    exact dlookup_map_value (moduleAttach pt)
      (g.foldl (fun m e => dinsert m e.1 (initRecord e.1 e.2)) []) k
  have hnd2 : ((build_component_map g pt).map Prod.fst).Nodup := by
    rw [build_component_map, keys_map_value]
    exact nodup_keys_foldl_dinsert initRecord g [] (by simp)
  have hP1 : ∀ k r,
      dlookup (g.foldl (fun m e => dinsert m e.1 (initRecord e.1 e.2)) []) k = some r →
      r.dependency_count = r.depends_on.length := by
    refine dlookup_foldl_dinsert_prop initRecord
      (fun r => r.dependency_count = r.depends_on.length) (fun k c => rfl) g [] ?_
    intro k r h
    rw [dlookup] at h
    exact absurd h (by simp)
  have hPcm1 : ∀ k r, dlookup (build_component_map g pt) k = some r →
      r.dependency_count = r.depends_on.length := by
    intro k r h
    rw [hcm1 k] at h
    cases h1 : dlookup (g.foldl (fun m e => dinsert m e.1 (initRecord e.1 e.2)) []) k with
    | none => rw [h1] at h; exact absurd h (by simp)
    | some r1 =>
        rw [h1] at h
        have hr : r = moduleAttach pt k r1 := (Option.some.inj h).symm
        subst hr
        have h2 := hP1 k r1 h1
        unfold moduleAttach
        cases dlookup pt.component_to_module k with
        | none => exact h2
        | some mp => exact h2
  constructor
  · intro p r h
    rw [hrev p] at h
    cases h1 : dlookup (build_component_map g pt) p with
    | none => rw [h1] at h; exact absurd h (by simp)
    | some r1 =>
        rw [h1] at h
        have hr : r = { r1 with
            depended_by := dependentsOf (build_component_map g pt) p
            dependent_count := (dependentsOf (build_component_map g pt) p).length } :=
          (Option.some.inj h).symm
        subst hr
        exact ⟨hPcm1 p r1 h1, rfl⟩
  · intro a ra b rb ha hb
    rw [hrev a] at ha
    rw [hrev b] at hb
    cases ha1 : dlookup (build_component_map g pt) a with
    | none => rw [ha1] at ha; exact absurd ha (by simp)
    | some ra1 =>
        cases hb1 : dlookup (build_component_map g pt) b with
        | none => rw [hb1] at hb; exact absurd hb (by simp)
        | some rb1 =>
            rw [ha1] at ha
            rw [hb1] at hb
            have hra : ra = { ra1 with
                depended_by := dependentsOf (build_component_map g pt) a
                dependent_count := (dependentsOf (build_component_map g pt) a).length } :=
              (Option.some.inj ha).symm
            have hrb : rb = { rb1 with
                depended_by := dependentsOf (build_component_map g pt) b
                dependent_count := (dependentsOf (build_component_map g pt) b).length } :=
              (Option.some.inj hb).symm
            subst hra
            subst hrb
            exact count_dependentsOf (build_component_map g pt) hnd2 a b ra1 ha1

/-- Witness for C6 at the scenario inputs: the record of `"a.b.Y"` counts
its single dependent `"a.X"` once, matching the single occurrence of
`"a.b.Y"` in the `depends_on` list of `"a.X"`. -/
theorem reverse_index_round_trip_witness :
    (ciEx.dependency_count = ciEx.depends_on.length ∧
      ciEx.dependent_count = ciEx.depended_by.length)
    ∧ cyEx.depended_by.count "a.X" = ciEx.depends_on.count "a.b.Y" :=
  ⟨(reverse_index_round_trip gEx ptEx).1 "a.X" ciEx rfl,
   (reverse_index_round_trip gEx ptEx).2 "a.X" ciEx "a.b.Y" cyEx rfl rfl⟩

/-! ### Claim C2: module-level edge classification -/

theorem lookupRel_dappend_self {α : Type} (d : List (String × List α)) (k : String) (v : α) :
    lookupRel (dappend d k v) k = lookupRel d k ++ [v] := by
  induction d with
  | nil => simp [dappend, lookupRel, dlookup]
  | cons e rest ih =>
      obtain ⟨ek, vs⟩ := e
      by_cases h : ek = k
      · subst h
        rw [dappend, if_pos rfl]
        simp [lookupRel, dlookup]
      · rw [dappend, if_neg h]
        simpa [lookupRel, dlookup, h] using ih

theorem dlookup_dappend_ne {α : Type} (d : List (String × List α)) (k k' : String)
    (v : α) (h : ¬ k = k') : dlookup (dappend d k v) k' = dlookup d k' := by
  induction d with
  | nil => simp [dappend, dlookup, h]
  | cons e rest ih =>
      obtain ⟨ek, vs⟩ := e
      by_cases he : ek = k
      · subst he
        rw [dappend, if_pos rfl]
        simp [dlookup, h]
      · rw [dappend, if_neg he]
        simp [dlookup, ih]

theorem modDepsLoop_spec (cm : List (String × ComponentRecord)) (mp comp_id : String) :
    ∀ (ids : List String) (st : ModState),
      ((modDepsLoop cm mp comp_id ids st).internal =
        st.internal ++ ids.filterMap (intEdgeF cm mp comp_id))
      ∧ (∀ dm, lookupRel (modDepsLoop cm mp comp_id ids st).ext dm =
          lookupRel st.ext dm ++
            (if dm = "" ∨ dm = mp then []
             else ids.filterMap (extEdgeF cm dm comp_id)))
      ∧ (modDepsLoop cm mp comp_id ids st).extDep = st.extDep := by
  intro ids
  induction ids with
  | nil =>
      intro st
      refine ⟨by simp [modDepsLoop], fun dm => ?_, by simp [modDepsLoop]⟩
      simp only [modDepsLoop, List.foldl_nil, List.filterMap_nil]
      split <;> simp
  | cons d rest ih =>
      intro st
      have hstep : modDepsLoop cm mp comp_id (d :: rest) st =
          modDepsLoop cm mp comp_id rest
            (match dlookup cm d with
             | none => st
             | some dc =>
                 if dc.module = some mp then
                   { st with internal := st.internal ++ [⟨comp_id, d⟩] }
                 else
                   match dc.module with
                   | some dm =>
                       if dm = "" then st
                       else { st with ext := dappend st.ext dm ⟨comp_id, d⟩ }
                   | none => st) := by
        simp [modDepsLoop, List.foldl_cons]
      rw [hstep]
      cases hd : dlookup cm d with
      | none =>
          have hFd : intEdgeF cm mp comp_id d = none := by rw [intEdgeF, hd]
          have hEd : ∀ dm, extEdgeF cm dm comp_id d = none := by
            intro dm; rw [extEdgeF, hd]
          obtain ⟨i1, i2, i3⟩ := ih st
          refine ⟨?_, fun dm => ?_, i3⟩
          · rw [List.filterMap_cons, hFd, i1]
          · rw [i2 dm]
            by_cases hg : dm = "" ∨ dm = mp
            · rw [if_pos hg, if_pos hg]
            · rw [if_neg hg, if_neg hg, List.filterMap_cons, hEd dm]
      | some dc =>
          by_cases h1 : dc.module = some mp
          · have hFd : intEdgeF cm mp comp_id d = some ⟨comp_id, d⟩ := by
              rw [intEdgeF, hd]
              dsimp only
              rw [if_pos h1]
            have hEd : ∀ dm, ¬ (dm = "" ∨ dm = mp) → extEdgeF cm dm comp_id d = none := by
              intro dm hg
              rw [extEdgeF, hd]
              dsimp only
              rw [if_neg (fun hc : dc.module = some dm =>
                hg (Or.inr ((Option.some.inj (h1 ▸ hc)).symm)))]
            dsimp only
            rw [if_pos h1]
            obtain ⟨i1, i2, i3⟩ := ih { st with internal := st.internal ++ [⟨comp_id, d⟩] }
            refine ⟨?_, fun dm => ?_, i3⟩
            · rw [List.filterMap_cons, hFd, i1]
              simp
            · rw [i2 dm]
              by_cases hg : dm = "" ∨ dm = mp
              · rw [if_pos hg, if_pos hg]
              · rw [if_neg hg, if_neg hg, List.filterMap_cons, hEd dm hg]
          · dsimp only
            rw [if_neg h1]
            have hFd : intEdgeF cm mp comp_id d = none := by
              rw [intEdgeF, hd]
              dsimp only
              rw [if_neg h1]
            cases hmod : dc.module with
            | none =>
                have hEd : ∀ dm, extEdgeF cm dm comp_id d = none := by
                  intro dm
                  rw [extEdgeF, hd]
                  dsimp only
                  rw [hmod]
                  simp
                obtain ⟨i1, i2, i3⟩ := ih st
                refine ⟨?_, fun dm => ?_, i3⟩
                · rw [List.filterMap_cons, hFd, i1]
                · rw [i2 dm]
                  by_cases hg : dm = "" ∨ dm = mp
                  · rw [if_pos hg, if_pos hg]
                  · rw [if_neg hg, if_neg hg, List.filterMap_cons, hEd dm]
            | some dmc =>
                dsimp only
                by_cases h2 : dmc = ""
                · rw [if_pos h2]
                  have hEd : ∀ dm, ¬ (dm = "" ∨ dm = mp) → extEdgeF cm dm comp_id d = none := by
                    intro dm hg
                    rw [extEdgeF, hd]
                    dsimp only
                    rw [hmod]
                    have hne : ¬ (some dmc : Option String) = some dm := by
                      intro hc
                      exact hg (Or.inl ((Option.some.inj hc) ▸ h2))
                    rw [if_neg hne]
                  obtain ⟨i1, i2, i3⟩ := ih st
                  refine ⟨?_, fun dm => ?_, i3⟩
                  · rw [List.filterMap_cons, hFd, i1]
                  · rw [i2 dm]
                    by_cases hg : dm = "" ∨ dm = mp
                    · rw [if_pos hg, if_pos hg]
                    · rw [if_neg hg, if_neg hg, List.filterMap_cons, hEd dm hg]
                · rw [if_neg h2]
                  obtain ⟨i1, i2, i3⟩ :=
                    ih { st with ext := dappend st.ext dmc ⟨comp_id, d⟩ }
                  refine ⟨?_, fun dm => ?_, i3⟩
                  · rw [List.filterMap_cons, hFd, i1]
                  · rw [i2 dm]
                    by_cases hdm : dm = dmc
                    · subst hdm
                      have hg : ¬ (dm = "" ∨ dm = mp) := by
                        intro hc
                        cases hc with
                        | inl hc => exact h2 hc
                        | inr hc => exact h1 (by rw [hmod, hc])
                      rw [if_neg hg, if_neg hg]
                      have hEd : extEdgeF cm dm comp_id d = some ⟨comp_id, d⟩ := by
                        rw [extEdgeF, hd]
                        dsimp only
                        rw [hmod, if_pos rfl]
                      rw [List.filterMap_cons, hEd]
                      show lookupRel (dappend st.ext dm ⟨comp_id, d⟩) dm ++ _ = _
                      rw [lookupRel_dappend_self]
                      simp
                    · have hlk : lookupRel (dappend st.ext dmc ⟨comp_id, d⟩) dm =
                          lookupRel st.ext dm := by
                        rw [lookupRel, dlookup_dappend_ne st.ext dmc dm _
                          (fun hc => hdm hc.symm), lookupRel]
                      rw [hlk]
                      by_cases hg : dm = "" ∨ dm = mp
                      · rw [if_pos hg, if_pos hg]
                      · rw [if_neg hg, if_neg hg]
                        have hEd : extEdgeF cm dm comp_id d = none := by
                          rw [extEdgeF, hd]
                          dsimp only
                          rw [hmod, if_neg (fun hc : (some dmc : Option String) = some dm =>
                            hdm (Option.some.inj hc).symm)]
                        rw [List.filterMap_cons, hEd]

theorem modDependentsLoop_preserves (cm : List (String × ComponentRecord))
    (mp comp_id : String) :
    ∀ (ids : List String) (st : ModState),
      (modDependentsLoop cm mp comp_id ids st).internal = st.internal
      ∧ (modDependentsLoop cm mp comp_id ids st).ext = st.ext := by
  intro ids
  induction ids with
  | nil =>
      intro st
      exact ⟨by simp [modDependentsLoop], by simp [modDependentsLoop]⟩
  | cons d rest ih =>
      intro st
      have hstep : modDependentsLoop cm mp comp_id (d :: rest) st =
          modDependentsLoop cm mp comp_id rest
            (match dlookup cm d with
             | none => st
             | some pc =>
                 match pc.module with
                 | some pm =>
                     if pm = "" then st
                     else if pm = mp then st
                     else { st with extDep := dappend st.extDep pm ⟨d, comp_id⟩ }
                 | none => st) := by
        simp [modDependentsLoop, List.foldl_cons]
      rw [hstep]
      obtain ⟨i1, i2⟩ := ih (match dlookup cm d with
        | none => st
        | some pc =>
            match pc.module with
            | some pm =>
                if pm = "" then st
                else if pm = mp then st
                else { st with extDep := dappend st.extDep pm ⟨d, comp_id⟩ }
            | none => st)
      have hpres :
          ((match dlookup cm d with
            | none => st
            | some pc =>
                match pc.module with
                | some pm =>
                    if pm = "" then st
                    else if pm = mp then st
                    else { st with extDep := dappend st.extDep pm ⟨d, comp_id⟩ }
                | none => st) : ModState).internal = st.internal ∧
          ((match dlookup cm d with
            | none => st
            | some pc =>
                match pc.module with
                | some pm =>
                    if pm = "" then st
                    else if pm = mp then st
                    else { st with extDep := dappend st.extDep pm ⟨d, comp_id⟩ }
                | none => st) : ModState).ext = st.ext := by
        refine ⟨?_, ?_⟩ <;>
        · cases dlookup cm d with
          | none => rfl
          | some pc =>
              dsimp only
              cases pc.module with
              | none => rfl
              | some pm =>
                  by_cases h1 : pm = ""
                  · simp [h1]
                  · by_cases h2 : pm = mp
                    · simp [h1, h2]
                    · simp [h1, h2]
      exact ⟨by rw [i1, hpres.1], by rw [i2, hpres.2]⟩

theorem internalEdgesSpec_cons (cm : List (String × ComponentRecord)) (mp c : String)
    (rest : List String) :
    internalEdgesSpec cm mp (c :: rest) =
      (match dlookup cm c with
       | none => []
       | some ci => ci.depends_on.filterMap (intEdgeF cm mp c)) ++
        internalEdgesSpec cm mp rest := by
  rw [internalEdgesSpec, internalEdgesSpec, List.flatMap_cons]

theorem externalRelSpec_cons (cm : List (String × ComponentRecord)) (mp c : String)
    (rest : List String) (dm : String) :
    externalRelSpec cm mp (c :: rest) dm =
      (if dm = "" ∨ dm = mp then []
       else
         match dlookup cm c with
         | none => []
         | some ci => ci.depends_on.filterMap (extEdgeF cm dm c)) ++
        externalRelSpec cm mp rest dm := by
  by_cases hg : dm = "" ∨ dm = mp
  · rw [externalRelSpec, if_pos hg, externalRelSpec, if_pos hg, if_pos hg]
    rfl
  · rw [externalRelSpec, if_neg hg, externalRelSpec, if_neg hg, if_neg hg,
      List.flatMap_cons]

theorem modLoop_spec (cm : List (String × ComponentRecord)) (mp : String) :
    ∀ (comps : List String) (st : ModState),
      ((modLoop cm mp comps st).internal = st.internal ++ internalEdgesSpec cm mp comps)
      ∧ (∀ dm, lookupRel (modLoop cm mp comps st).ext dm =
          lookupRel st.ext dm ++ externalRelSpec cm mp comps dm) := by
  intro comps
  induction comps with
  | nil =>
      intro st
      refine ⟨by simp [modLoop, internalEdgesSpec], fun dm => ?_⟩
      simp only [modLoop, List.foldl_nil, externalRelSpec]
      split <;> simp
  | cons c rest ih =>
      intro st
      have hstep : modLoop cm mp (c :: rest) st =
          modLoop cm mp rest
            (match dlookup cm c with
             | none => st
             | some ci =>
                 modDependentsLoop cm mp c ci.depended_by
                   (modDepsLoop cm mp c ci.depends_on st)) := by
        simp [modLoop, List.foldl_cons]
      rw [hstep]
      cases hc : dlookup cm c with
      | none =>
          obtain ⟨i1, i2⟩ := ih st
          refine ⟨?_, fun dm => ?_⟩
          · rw [internalEdgesSpec_cons, hc, i1]
            simp
          · rw [externalRelSpec_cons, hc, i2 dm]
            by_cases hg : dm = "" ∨ dm = mp
            · rw [if_pos hg]
              simp
            · rw [if_neg hg]
              simp
      | some ci =>
          obtain ⟨i1, i2⟩ :=
            ih (modDependentsLoop cm mp c ci.depended_by
              (modDepsLoop cm mp c ci.depends_on st))
          obtain ⟨p1, p2⟩ := modDependentsLoop_preserves cm mp c ci.depended_by
            (modDepsLoop cm mp c ci.depends_on st)
          obtain ⟨d1, d2, _⟩ := modDepsLoop_spec cm mp c ci.depends_on st
          refine ⟨?_, fun dm => ?_⟩
          · rw [internalEdgesSpec_cons, hc, i1, p1, d1]
            simp
          · rw [externalRelSpec_cons, hc, i2 dm]
            have : lookupRel (modDependentsLoop cm mp c ci.depended_by
                (modDepsLoop cm mp c ci.depends_on st)).ext dm =
                lookupRel (modDepsLoop cm mp c ci.depends_on st).ext dm := by
              rw [lookupRel, p2, lookupRel]
            rw [this, d2 dm]
            simp

/-- C2 (amended): for an existing module, `analyze_module_dependencies`
records an in-map dependency edge as internal exactly when the target's
module equals the queried path, and as an external relationship grouped
under the target's module exactly when that module is a nonempty path
different from the queried one; edges whose in-map target has no module
assignment (or an empty module path) are omitted from both
classifications. -/
theorem analyze_module_classification (pt : ParsedTree)
    (cm : List (String × ComponentRecord)) (mp : String) (mi : ParsedModule)
    (h : dlookup pt.modules mp = some mi) :
    ((analyze_module_dependencies pt cm mp).toOption.map
        ModuleAnalysis.internal_dependencies
      = some (internalEdgesSpec cm mp mi.components))
    ∧ ∀ dm, (analyze_module_dependencies pt cm mp).toOption.map
        (fun r => lookupRel r.external_dependencies dm)
      = some (externalRelSpec cm mp mi.components dm) := by
  obtain ⟨l1, l2⟩ := modLoop_spec cm mp mi.components ⟨[], [], []⟩
  constructor
  · simp only [analyze_module_dependencies, h, Except.toOption, Option.map_some']
    rw [Option.some.injEq]
    rw [show (⟨[], [], []⟩ : ModState).internal = [] from rfl] at l1
    rw [List.nil_append] at l1
    exact l1
  · intro dm
    simp only [analyze_module_dependencies, h, Except.toOption, Option.map_some']
    rw [Option.some.injEq]
    have hempty : lookupRel (⟨[], [], []⟩ : ModState).ext dm = [] := by
      rw [lookupRel]
      rfl
    rw [l2 dm, hempty, List.nil_append]

/-- C2 counterexample: `"X"` is owned by module `"m"` and depends on
`"Y"`, which is present in the component map but assigned to no module
(its module is `None`); the edge appears in neither
`internal_dependencies` nor `external_dependencies`, so the claim that no
in-map edge is omitted from both classifications is false. -/
theorem module_edge_dropped_for_unassigned_target :
    (dlookup cmMod "Y").isSome = true
    ∧ (dlookup cmMod "Y").map ComponentRecord.module = some none
    ∧ (dlookup cmMod "X").map ComponentRecord.depends_on = some ["Y"]
    ∧ (dlookup ptMod.modules "m").map ParsedModule.components = some ["X"]
    ∧ (analyze_module_dependencies ptMod cmMod "m").toOption.map
        ModuleAnalysis.internal_dependencies = some []
    ∧ (analyze_module_dependencies ptMod cmMod "m").toOption.map
        ModuleAnalysis.external_dependencies = some [] :=
  ⟨rfl, rfl, rfl, rfl, rfl, rfl⟩

/-- Witness for C2 (amended) at the scenario inputs, module `"a"` and
target module `"a/b"`. -/
theorem analyze_module_classification_witness :
    ((analyze_module_dependencies ptEx cmEx "a").toOption.map
        ModuleAnalysis.internal_dependencies
      = some (internalEdgesSpec cmEx "a" miEx.components))
    ∧ (analyze_module_dependencies ptEx cmEx "a").toOption.map
        (fun r => lookupRel r.external_dependencies "a/b")
      = some (externalRelSpec cmEx "a" miEx.components "a/b") :=
  ⟨(analyze_module_classification ptEx cmEx "a" miEx rfl).1,
   (analyze_module_classification ptEx cmEx "a" miEx rfl).2 "a/b"⟩

/-! ### Claims C4, C5, C7: parse-tree structure and processing order -/

mutual
theorem isLeaf_preorderNode (p : String) (t : MTree) (par : Option String) (lvl : Nat) :
    ∀ m ∈ preorderNode p t par lvl, m.is_leaf = m.children.isEmpty := by
  cases t with
  | node comps ch =>
      intro m hm
      rw [preorderNode] at hm
      rcases List.mem_cons.mp hm with h | h
      · subst h; rfl
      · exact isLeaf_preorderList ch (some p) (lvl + 1) m h
theorem isLeaf_preorderList (f : MForest) (par : Option String) (lvl : Nat) :
    ∀ m ∈ preorderList f par lvl, m.is_leaf = m.children.isEmpty := by
  cases f with
  | nil => intro m hm; rw [preorderList] at hm; exact absurd hm (by simp)
  | cons q t rest =>
      intro m hm
      rw [preorderList] at hm
      rcases List.mem_append.mp hm with h | h
      · exact isLeaf_preorderNode q t par lvl m h
      · exact isLeaf_preorderList rest par lvl m h
end

mutual
theorem parent_level_preorderNode (p : String) (t : MTree) (par : Option String) (lvl : Nat) :
    ∀ m ∈ preorderNode p t par lvl,
      (m.parent = par ∧ m.level = lvl) ∨
      ∃ m', m' ∈ preorderNode p t par lvl ∧ m.parent = some m'.path ∧
        m.level = m'.level + 1 := by
  cases t with
  | node comps ch =>
      intro m hm
      rw [preorderNode] at hm
      rcases List.mem_cons.mp hm with h | h
      · subst h; exact Or.inl ⟨rfl, rfl⟩
      · rcases parent_level_preorderList ch (some p) (lvl + 1) m h with ⟨h1, h2⟩ | ⟨m', hm', h1, h2⟩
        · refine Or.inr ⟨⟨p, comps, ch, par, ch.isEmpty, lvl⟩, ?_, h1, h2⟩
          rw [preorderNode]
          exact List.mem_cons_self _ _
        · refine Or.inr ⟨m', ?_, h1, h2⟩
          rw [preorderNode]
          exact List.mem_cons_of_mem _ hm'
theorem parent_level_preorderList (f : MForest) (par : Option String) (lvl : Nat) :
    ∀ m ∈ preorderList f par lvl,
      (m.parent = par ∧ m.level = lvl) ∨
      ∃ m', m' ∈ preorderList f par lvl ∧ m.parent = some m'.path ∧
        m.level = m'.level + 1 := by
  cases f with
  | nil => intro m hm; rw [preorderList] at hm; exact absurd hm (by simp)
  | cons q t rest =>
      intro m hm
      rw [preorderList] at hm
      rcases List.mem_append.mp hm with h | h
      · rcases parent_level_preorderNode q t par lvl m h with hl | ⟨m', hm', h1, h2⟩
        · exact Or.inl hl
        · refine Or.inr ⟨m', ?_, h1, h2⟩
          rw [preorderList]
          exact List.mem_append.mpr (Or.inl hm')
      · rcases parent_level_preorderList rest par lvl m h with hl | ⟨m', hm', h1, h2⟩
        · exact Or.inl hl
        · refine Or.inr ⟨m', ?_, h1, h2⟩
          rw [preorderList]
          exact List.mem_append.mpr (Or.inr hm')
end

theorem dinsert_of_not_mem {α : Type} (d : List (String × α)) (k : String) (v : α)
    (h : k ∉ d.map Prod.fst) : dinsert d k v = d ++ [(k, v)] := by
  induction d with
  | nil => rw [dinsert]; rfl
  | cons e rest ih =>
      simp only [List.map_cons, List.mem_cons] at h
      push_neg at h
      rw [dinsert, if_neg (fun hh => h.1 hh.symm), ih h.2]
      rfl

theorem foldl_applyVisit_modules (ms : List ParsedModule) :
    ∀ acc : ParsedTree, (ms.foldl applyVisit acc).modules =
      ms.foldl (fun d m => dinsert d m.path m) acc.modules := by
  induction ms with
  | nil => intro acc; rfl
  | cons m rest ih =>
      intro acc
      rw [List.foldl_cons, List.foldl_cons, ih (applyVisit acc m)]
      rfl

theorem foldl_applyVisit_roots (ms : List ParsedModule) :
    ∀ acc : ParsedTree, (ms.foldl applyVisit acc).root_modules =
      acc.root_modules ++ (ms.filter (fun m => m.parent.isNone)).map ParsedModule.path := by
  induction ms with
  | nil => intro acc; simp
  | cons m rest ih =>
      intro acc
      rw [List.foldl_cons, ih (applyVisit acc m)]
      by_cases hp : m.parent.isNone
      · have : (applyVisit acc m).root_modules = acc.root_modules ++ [m.path] := by
          rw [applyVisit]
          simp [hp]
        rw [this, List.filter_cons, if_pos hp]
        simp
      · have : (applyVisit acc m).root_modules = acc.root_modules := by
          rw [applyVisit]
          simp [hp]
        rw [this, List.filter_cons, if_neg hp]

theorem foldl_dinsert_fresh :
    ∀ (ms : List ParsedModule) (d : List (String × ParsedModule)),
      (ms.map ParsedModule.path).Nodup →
      (∀ m ∈ ms, m.path ∉ d.map Prod.fst) →
      ms.foldl (fun d m => dinsert d m.path m) d = d ++ ms.map (fun m => (m.path, m)) := by
  intro ms
  induction ms with
  | nil => intro d _ _; simp
  | cons m rest ih =>
      intro d hnd hfresh
      rw [List.map_cons, List.nodup_cons] at hnd
      rw [List.foldl_cons, dinsert_of_not_mem d m.path m (hfresh m (List.mem_cons_self _ _))]
      rw [ih (d ++ [(m.path, m)]) hnd.2 ?_]
      · simp
      · intro m' hm'
        rw [List.map_append, List.mem_append]
        push_neg
        refine ⟨hfresh m' (List.mem_cons_of_mem _ hm'), ?_⟩
        simp only [List.map_cons, List.map_nil, List.mem_singleton]
        intro hc
        exact hnd.1 (hc ▸ List.mem_map.mpr ⟨m', hm', rfl⟩)

theorem parse_modules_eq (t : MForest)
    (hnd : ((preorderList t none 0).map ParsedModule.path).Nodup) :
    (parse_module_tree t).modules =
      (preorderList t none 0).map (fun m => (m.path, m)) := by
  rw [parse_module_tree, foldl_applyVisit_modules]
  rw [foldl_dinsert_fresh (preorderList t none 0) _ hnd (by simp)]
  simp

theorem parse_roots_eq (t : MForest) :
    (parse_module_tree t).root_modules =
      ((preorderList t none 0).filter (fun m => m.parent.isNone)).map ParsedModule.path := by
  rw [parse_module_tree, foldl_applyVisit_roots]
  simp

theorem dlookup_pathmap :
    ∀ (ms : List ParsedModule), ((ms.map ParsedModule.path).Nodup) →
      ∀ (p : String) (m : ParsedModule),
      (dlookup (ms.map (fun m => (m.path, m))) p = some m ↔ m ∈ ms ∧ m.path = p) := by
  intro ms
  induction ms with
  | nil =>
      intro _ p m
      rw [List.map_nil, dlookup]
      simp
  | cons m0 rest ih =>
      intro hnd p m
      rw [List.map_cons, List.nodup_cons] at hnd
      rw [List.map_cons, dlookup]
      by_cases h0 : m0.path = p
      · rw [if_pos h0]
        constructor
        · intro hs
          have : m0 = m := Option.some.inj hs
          subst this
          exact ⟨List.mem_cons_self _ _, h0⟩
        · intro ⟨hmem, hp⟩
          rcases List.mem_cons.mp hmem with h | h
          · subst h; rfl
          · exact absurd (List.mem_map.mpr ⟨m, h, hp.trans h0.symm⟩) hnd.1
      · rw [if_neg h0, ih hnd.2 p m]
        constructor
        · intro ⟨hmem, hp⟩
          exact ⟨List.mem_cons_of_mem _ hmem, hp⟩
        · intro ⟨hmem, hp⟩
          rcases List.mem_cons.mp hmem with h | h
          · subst h; exact absurd hp h0
          · exact ⟨h, hp⟩

theorem parse_lookup_iff (t : MForest)
    (hnd : ((preorderList t none 0).map ParsedModule.path).Nodup)
    (p : String) (m : ParsedModule) :
    dlookup (parse_module_tree t).modules p = some m ↔
      m ∈ preorderList t none 0 ∧ m.path = p := by
  rw [parse_modules_eq t hnd]
  exact dlookup_pathmap (preorderList t none 0) hnd p m

theorem parse_isLeaf (t : MForest)
    (hnd : ((preorderList t none 0).map ParsedModule.path).Nodup)
    (p : String) (m : ParsedModule)
    (h : dlookup (parse_module_tree t).modules p = some m) :
    m.is_leaf = m.children.isEmpty := by
  obtain ⟨hm, _⟩ := (parse_lookup_iff t hnd p m).mp h
  exact isLeaf_preorderList t none 0 m hm

theorem parse_root_iff (t : MForest)
    (hnd : ((preorderList t none 0).map ParsedModule.path).Nodup)
    (p : String) (m : ParsedModule)
    (h : dlookup (parse_module_tree t).modules p = some m) :
    m.parent = none ↔ p ∈ (parse_module_tree t).root_modules := by
  obtain ⟨hm, hp⟩ := (parse_lookup_iff t hnd p m).mp h
  rw [parse_roots_eq]
  constructor
  · intro hpar
    refine List.mem_map.mpr ⟨m, ?_, hp⟩
    rw [List.mem_filter]
    exact ⟨hm, by rw [hpar]; rfl⟩
  · intro hmem
    obtain ⟨m', hm', hp'⟩ := List.mem_map.mp hmem
    rw [List.mem_filter] at hm'
    have heq : m' = m :=
      List.inj_on_of_nodup_map hnd hm'.1 hm (by rw [hp', hp])
    have hiso := hm'.2
    rw [heq] at hiso
    exact Option.isNone_iff_eq_none.mp hiso

theorem parse_root_level (t : MForest)
    (hnd : ((preorderList t none 0).map ParsedModule.path).Nodup)
    (p : String) (m : ParsedModule)
    (h : dlookup (parse_module_tree t).modules p = some m)
    (hmem : p ∈ (parse_module_tree t).root_modules) : m.level = 0 := by
  have hpar : m.parent = none := (parse_root_iff t hnd p m h).mpr hmem
  obtain ⟨hm, _⟩ := (parse_lookup_iff t hnd p m).mp h
  rcases parent_level_preorderList t none 0 m hm with ⟨_, hl⟩ | ⟨m', _, h1, _⟩
  · exact hl
  · rw [hpar] at h1
    exact absurd h1 (by simp)

theorem parse_parent_level (t : MForest)
    (hnd : ((preorderList t none 0).map ParsedModule.path).Nodup)
    (p : String) (m : ParsedModule) (q : String)
    (h : dlookup (parse_module_tree t).modules p = some m)
    (hq : m.parent = some q) :
    ∃ mq, dlookup (parse_module_tree t).modules q = some mq ∧
      m.level = mq.level + 1 := by
  obtain ⟨hm, _⟩ := (parse_lookup_iff t hnd p m).mp h
  rcases parent_level_preorderList t none 0 m hm with ⟨h1, _⟩ | ⟨m', hm', h1, h2⟩
  · rw [hq] at h1
    exact absurd h1 (by simp)
  · have hq' : m'.path = q := by
      rw [hq] at h1
      exact (Option.some.inj h1).symm
    exact ⟨m', (parse_lookup_iff t hnd q m').mpr ⟨hm', hq'⟩, h2⟩

/-- C7 counterexample: in the tree `{"a": {"children": {"a": {}}}}` the
path key `"a"` occurs at two nesting depths; the final record of `"a"` has
`parent = Some "a"` and `level = 1`, yet `"a"` is listed in
`root_modules`, so `parent == None` iff root fails, a root has nonzero
level, and the record's level is not its parent's level plus one (the
parent is the record itself). -/
theorem dup_path_breaks_invariants :
    (parse_module_tree tDup).root_modules = ["a"]
    ∧ (dlookup (parse_module_tree tDup).modules "a").map ParsedModule.parent =
        some (some "a")
    ∧ (dlookup (parse_module_tree tDup).modules "a").map ParsedModule.level = some 1 :=
  ⟨rfl, rfl, rfl⟩

/-- C7 (amended): provided the module path keys occurring in the tree are
pairwise distinct (no path appears twice in the pre-order traversal), for
every parsed module: `is_leaf` holds exactly when its children mapping is
empty; its parent is `None` exactly when it is a root (member of
`root_modules`); root modules have level 0; and a module with parent `q`
has level equal to `q`'s level plus one. -/
theorem parse_module_tree_invariants (t : MForest)
    (hnd : ((preorderList t none 0).map ParsedModule.path).Nodup) :
    (∀ p m, dlookup (parse_module_tree t).modules p = some m →
        m.is_leaf = m.children.isEmpty)
    ∧ (∀ p m, dlookup (parse_module_tree t).modules p = some m →
        (m.parent = none ↔ p ∈ (parse_module_tree t).root_modules))
    ∧ (∀ p m, dlookup (parse_module_tree t).modules p = some m →
        p ∈ (parse_module_tree t).root_modules → m.level = 0)
    ∧ (∀ p m q, dlookup (parse_module_tree t).modules p = some m →
        m.parent = some q →
        ∃ mq, dlookup (parse_module_tree t).modules q = some mq ∧
          m.level = mq.level + 1) :=
  ⟨fun p m h => parse_isLeaf t hnd p m h,
   fun p m h => parse_root_iff t hnd p m h,
   fun p m h hmem => parse_root_level t hnd p m h hmem,
   fun p m q h hq => parse_parent_level t hnd p m q h hq⟩

/-- Witness for C7 (amended) at the scenario tree: `"a/b"` is a leaf,
`"a"` is a root with level 0, and the level of `"a/b"` is the level of its
parent `"a"` plus one. -/
theorem parse_module_tree_invariants_witness :
    mbEx.is_leaf = mbEx.children.isEmpty
    ∧ (miEx.parent = none ↔ "a" ∈ ptEx.root_modules)
    ∧ miEx.level = 0
    ∧ (dlookup ptEx.modules "a" = some miEx ∧ mbEx.level = miEx.level + 1) := by
  have hnd : ((preorderList tEx none 0).map ParsedModule.path).Nodup := by decide
  obtain ⟨c1, c2, c3, c4⟩ := parse_module_tree_invariants tEx hnd
  refine ⟨c1 "a/b" mbEx rfl, c2 "a" miEx rfl, c3 "a" miEx rfl (by decide), ?_⟩
  obtain ⟨mq, hmq, hlev⟩ := c4 "a/b" mbEx "a" rfl rfl
  have : mq = miEx := by
    have h2 : dlookup ptEx.modules "a" = some miEx := rfl
    exact Option.some.inj (hmq.symm.trans h2)
  rw [this] at hmq hlev
  exact ⟨hmq, hlev⟩

theorem nodup_keys_foldl_dinsert_records :
    ∀ (ms : List ParsedModule) (d : List (String × ParsedModule)),
      (d.map Prod.fst).Nodup →
      ((ms.foldl (fun d m => dinsert d m.path m) d).map Prod.fst).Nodup := by
  intro ms
  induction ms with
  | nil => intro d h; simpa using h
  | cons m rest ih =>
      intro d h
      rw [List.foldl_cons]
      exact ih (dinsert d m.path m) (nodup_keys_dinsert d m.path m h)

theorem parse_keys_nodup (t : MForest) :
    ((parse_module_tree t).modules.map Prod.fst).Nodup := by
  rw [parse_module_tree, foldl_applyVisit_modules]
  exact nodup_keys_foldl_dinsert_records (preorderList t none 0) [] (by simp)

theorem dlookup_mem {α : Type} :
    ∀ (d : List (String × α)) (k : String) (v : α),
      dlookup d k = some v → (k, v) ∈ d := by
  intro d
  induction d with
  | nil => intro k v h; rw [dlookup] at h; exact absurd h (by simp)
  | cons e rest ih =>
      intro k v h
      rw [dlookup] at h
      by_cases he : e.1 = k
      · rw [if_pos he] at h
        rw [List.mem_cons]
        left
        rw [← he, ← Option.some.inj h]
      · rw [if_neg he] at h
        exact List.mem_cons_of_mem _ (ih k v h)

theorem dlookup_isSome_of_mem {α : Type} :
    ∀ (d : List (String × α)) (k : String) (v : α),
      (k, v) ∈ d → (dlookup d k).isSome := by
  intro d
  induction d with
  | nil => intro k v h; exact absurd h (by simp)
  | cons e rest ih =>
      intro k v h
      rw [dlookup]
      by_cases he : e.1 = k
      · rw [if_pos he]; rfl
      · rw [if_neg he]
        rcases List.mem_cons.mp h with h' | h'
        · exact absurd (congrArg Prod.fst h'.symm) he
        · exact ih k v h'

theorem filterMap_if_isEmpty {β : Type} (g : Nat → List β) (xs : List Nat) :
    xs.filterMap (fun x => if (g x).isEmpty then none else some (g x)) =
      (xs.filter (fun x => !(g x).isEmpty)).map g := by
  induction xs with
  | nil => rfl
  | cons x rest ih =>
      rw [List.filterMap_cons, List.filter_cons]
      by_cases hx : (g x).isEmpty
      · rw [if_pos hx, ih]
        have : (!(g x).isEmpty) = false := by rw [hx]; rfl
        rw [this]
        simp
      · rw [if_neg hx, ih]
        have hb : (g x).isEmpty = false := Bool.eq_false_iff.mpr hx
        have : (!(g x).isEmpty) = true := by rw [hb]; rfl
        rw [this]
        simp

theorem get_processing_order_eq (pt : ParsedTree) (h : pt.modules ≠ []) :
    get_processing_order pt = some ((descLevels pt).map (atLevel pt)) := by
  obtain ⟨e, rest, hm⟩ := List.exists_cons_of_ne_nil h
  rw [get_processing_order, hm]
  rw [Option.some.injEq, descLevels]
  exact filterMap_if_isEmpty (atLevel pt) ((List.range (maxLevel pt + 1)).reverse)

theorem foldl_max_init_le :
    ∀ (l : List (String × ParsedModule)) (init : Nat),
      init ≤ l.foldl (fun a e => max a e.2.level) init := by
  intro l
  induction l with
  | nil => intro init; exact le_refl init
  | cons e rest ih =>
      intro init
      rw [List.foldl_cons]
      exact le_trans (le_max_left init e.2.level) (ih (max init e.2.level))

theorem foldl_max_mem_le :
    ∀ (l : List (String × ParsedModule)) (init : Nat) (e : String × ParsedModule),
      e ∈ l → e.2.level ≤ l.foldl (fun a e => max a e.2.level) init := by
  intro l
  induction l with
  | nil => intro init e h; exact absurd h (by simp)
  | cons e0 rest ih =>
      intro init e h
      rw [List.foldl_cons]
      rcases List.mem_cons.mp h with h' | h'
      · subst h'
        exact le_trans (le_max_right init e.2.level) (foldl_max_init_le rest _)
      · exact ih _ e h'

theorem level_le_maxLevel (pt : ParsedTree) (p : String) (m : ParsedModule)
    (h : dlookup pt.modules p = some m) : m.level ≤ maxLevel pt := by
  rw [maxLevel]
  exact foldl_max_mem_le pt.modules 0 (p, m) (dlookup_mem pt.modules p m h)

theorem dlookup_of_mem_nodup {α : Type} :
    ∀ (d : List (String × α)), ((d.map Prod.fst).Nodup) →
      ∀ (k : String) (v : α), (k, v) ∈ d → dlookup d k = some v := by
  intro d
  induction d with
  | nil => intro _ k v h; exact absurd h (by simp)
  | cons e rest ih =>
      intro hnd k v h
      rw [List.map_cons, List.nodup_cons] at hnd
      rcases List.mem_cons.mp h with h' | h'
      · rw [← h', dlookup, if_pos rfl]
      · rw [dlookup]
        by_cases he : e.1 = k
        · exfalso
          apply hnd.1
          rw [he]
          exact List.mem_map.mpr ⟨(k, v), h', rfl⟩
        · rw [if_neg he]
          exact ih hnd.2 k v h'

theorem mem_atLevel_iff (pt : ParsedTree)
    (hnd : (pt.modules.map Prod.fst).Nodup)
    (p : String) (m : ParsedModule) (h : dlookup pt.modules p = some m) (lvl : Nat) :
    p ∈ atLevel pt lvl ↔ lvl = m.level := by
  rw [atLevel]
  constructor
  · intro hmem
    obtain ⟨e, he, hp⟩ := List.mem_map.mp hmem
    obtain ⟨a, b⟩ := e
    rw [List.mem_filter] at he
    dsimp only at hp he
    subst hp
    have hlk : dlookup pt.modules a = some b :=
      dlookup_of_mem_nodup pt.modules hnd a b he.1
    rw [h] at hlk
    have hmb : m = b := Option.some.inj hlk
    rw [hmb]
    exact (beq_iff_eq.mp he.2).symm
  · intro hlvl
    refine List.mem_map.mpr ⟨(p, m), ?_, rfl⟩
    rw [List.mem_filter]
    refine ⟨dlookup_mem pt.modules p m h, ?_⟩
    subst hlvl
    exact beq_self_eq_true _

theorem mem_descLevels (pt : ParsedTree)
    (hnd : (pt.modules.map Prod.fst).Nodup)
    (p : String) (m : ParsedModule) (h : dlookup pt.modules p = some m) :
    m.level ∈ descLevels pt := by
  rw [descLevels, List.mem_filter]
  constructor
  · rw [List.mem_reverse, List.mem_range]
    exact Nat.lt_succ_of_le (level_le_maxLevel pt p m h)
  · have hp : p ∈ atLevel pt m.level := (mem_atLevel_iff pt hnd p m h m.level).mpr rfl
    have : (atLevel pt m.level).isEmpty = false := by
      cases hAl : atLevel pt m.level with
      | nil => rw [hAl] at hp; exact absurd hp (by simp)
      | cons x xs => rfl
    rw [this]
    rfl

theorem descLevels_pairwise (pt : ParsedTree) :
    (descLevels pt).Pairwise (fun a b => a > b) := by
  rw [descLevels]
  refine List.Pairwise.sublist (List.filter_sublist _) ?_
  rw [List.pairwise_reverse]
  exact List.pairwise_lt_range _

theorem descLevels_nodup (pt : ParsedTree) : (descLevels pt).Nodup := by
  rw [descLevels]
  exact List.Nodup.filter _ (List.nodup_reverse.mpr (List.nodup_range _))

theorem findIdx_map_comp {β γ : Type} (g : β → γ) (p : γ → Bool) :
    ∀ xs : List β, (xs.map g).findIdx p = xs.findIdx (fun x => p (g x)) := by
  intro xs
  induction xs with
  | nil => rfl
  | cons x rest ih =>
      rw [List.map_cons, List.findIdx_cons, List.findIdx_cons, ih]

theorem findIdx_congr_on (p q : Nat → Bool) :
    ∀ xs : List Nat, (∀ x ∈ xs, p x = q x) → xs.findIdx p = xs.findIdx q := by
  intro xs
  induction xs with
  | nil => intro _; rfl
  | cons x rest ih =>
      intro h
      rw [List.findIdx_cons, List.findIdx_cons, h x (List.mem_cons_self _ _),
        ih (fun y hy => h y (List.mem_cons_of_mem _ hy))]

theorem findIdx_eq_countP_gt :
    ∀ (xs : List Nat), xs.Pairwise (fun a b => a > b) → ∀ a ∈ xs,
      xs.findIdx (fun x => x == a) = xs.countP (fun x => a < x) := by
  intro xs
  induction xs with
  | nil => intro _ a ha; exact absurd ha (by simp)
  | cons h t ih =>
      intro hps a ha
      rw [List.pairwise_cons] at hps
      rw [List.findIdx_cons, List.countP_cons]
      by_cases hha : h = a
      · subst hha
        have hb : (h == h) = true := beq_self_eq_true h
        rw [hb]
        have hzero : t.countP (fun x => h < x) = 0 := by
          rw [List.countP_eq_zero]
          intro x hx
          simp only [decide_eq_true_eq]
          exact Nat.not_lt.mpr (le_of_lt (hps.1 x hx))
        have hself : (decide (h < h)) = false := by simp
        rw [hzero, hself]
        rfl
      · have hb : (h == a) = false := beq_eq_false_iff_ne.mpr hha
        rw [hb]
        have hat : a ∈ t := by
          rcases List.mem_cons.mp ha with h' | h'
          · exact absurd h'.symm hha
          · exact h'
        have hgt : a < h := hps.1 a hat
        have hdec : (decide (a < h)) = true := decide_eq_true hgt
        rw [hdec, ih hps.2 a hat]
        show t.countP _ + 1 = t.countP _ + 1
        rfl

theorem count_map_fst_filter_level (lvl : Nat) (p : String) :
    ∀ (d : List (String × ParsedModule)), ((d.map Prod.fst).Nodup) →
      (∀ m, dlookup d p = some m →
        ((d.filter (fun e => e.2.level == lvl)).map (fun e => e.1)).count p =
          if m.level = lvl then 1 else 0)
      ∧ (dlookup d p = none →
        ((d.filter (fun e => e.2.level == lvl)).map (fun e => e.1)).count p = 0) := by
  intro d
  induction d with
  | nil =>
      intro _
      exact ⟨fun m h => absurd h (by rw [dlookup]; simp), fun _ => rfl⟩
  | cons e rest ih =>
      intro hnd
      rw [List.map_cons, List.nodup_cons] at hnd
      obtain ⟨ihs, ihn⟩ := ih hnd.2
      by_cases he : e.1 = p
      · constructor
        · intro m h
          rw [dlookup, if_pos he] at h
          have hm : m = e.2 := (Option.some.inj h).symm
          subst hm
          have hrest : ((rest.filter (fun e => e.2.level == lvl)).map
              (fun e => e.1)).count p = 0 := by
            rw [List.count_eq_zero]
            intro hc
            obtain ⟨e', he', hp'⟩ := List.mem_map.mp hc
            rw [List.mem_filter] at he'
            apply hnd.1
            rw [he]
            exact hp' ▸ List.mem_map.mpr ⟨e', he'.1, rfl⟩
          rw [List.filter_cons]
          by_cases hl : e.2.level = lvl
          · rw [if_pos (by exact (beq_iff_eq.mpr hl)), if_pos hl]
            rw [List.map_cons, List.count_cons, hrest]
            simp [he]
          · have : (e.2.level == lvl) = false := beq_eq_false_iff_ne.mpr hl
            rw [this]
            show ((rest.filter _).map _).count p = if e.2.level = lvl then 1 else 0
            rw [if_neg hl, hrest]
        · intro h
          rw [dlookup, if_pos he] at h
          exact absurd h (by simp)
      · have hlk : dlookup (e :: rest) p = dlookup rest p := by
          rw [dlookup, if_neg he]
        have hcount : ∀ l' : List (String × ParsedModule),
            ((e :: l').map (fun e => e.1)).count p = (l'.map (fun e => e.1)).count p := by
          intro l'
          rw [List.map_cons, List.count_cons]
          have hpe : (e.1 == p) = false := beq_eq_false_iff_ne.mpr he
          rw [hpe]
          simp
        constructor
        · intro m h
          rw [hlk] at h
          rw [List.filter_cons]
          by_cases hl : (e.2.level == lvl)
          · rw [if_pos hl, hcount]
            exact ihs m h
          · rw [if_neg hl]
            exact ihs m h
        · intro h
          rw [hlk] at h
          rw [List.filter_cons]
          by_cases hl : (e.2.level == lvl)
          · rw [if_pos hl, hcount]
            exact ihn h
          · rw [if_neg hl]
            exact ihn h

theorem sum_map_indicator (a : Nat) :
    ∀ (xs : List Nat), xs.Nodup →
      (xs.map (fun x => if a = x then 1 else 0)).sum = if a ∈ xs then 1 else 0 := by
  intro xs
  induction xs with
  | nil => intro _; rfl
  | cons x rest ih =>
      intro hnd
      rw [List.nodup_cons] at hnd
      rw [List.map_cons, List.sum_cons, ih hnd.2]
      by_cases hax : a = x
      · subst hax
        rw [if_pos rfl, if_pos (List.mem_cons_self _ _), if_neg hnd.1]
      · rw [if_neg hax]
        by_cases har : a ∈ rest
        · rw [if_pos har, if_pos (List.mem_cons_of_mem _ har)]
        · rw [if_neg har, if_neg (by
            intro hc
            rcases List.mem_cons.mp hc with h' | h'
            · exact hax h'
            · exact har h')]

theorem batchIdx_eq (pt : ParsedTree) (hnd : (pt.modules.map Prod.fst).Nodup)
    (p : String) (m : ParsedModule) (h : dlookup pt.modules p = some m) :
    batchIdx ((descLevels pt).map (atLevel pt)) p =
      (descLevels pt).findIdx (fun lvl => lvl == m.level) := by
  rw [batchIdx, findIdx_map_comp]
  refine findIdx_congr_on _ _ _ ?_
  intro lvl _
  by_cases hc : lvl = m.level
  · have hp : p ∈ atLevel pt lvl := (mem_atLevel_iff pt hnd p m h lvl).mpr hc
    subst hc
    show List.elem p (atLevel pt m.level) = (m.level == m.level)
    rw [List.elem_eq_mem]
    simp [hp]
  · have hp : p ∉ atLevel pt lvl := fun hmem =>
      hc ((mem_atLevel_iff pt hnd p m h lvl).mp hmem)
    show List.elem p (atLevel pt lvl) = (lvl == m.level)
    rw [List.elem_eq_mem]
    simp [hp, hc]

theorem count_flatten_batches (pt : ParsedTree)
    (hnd : (pt.modules.map Prod.fst).Nodup) (p : String) :
    (((descLevels pt).map (atLevel pt)).flatten).count p =
      if (dlookup pt.modules p).isSome then 1 else 0 := by
  rw [List.count_flatten, List.map_map]
  cases hlk : dlookup pt.modules p with
  | some m =>
      have hcnt : ∀ lvl ∈ descLevels pt,
          (List.count p ∘ atLevel pt) lvl = (fun x => if m.level = x then 1 else 0) lvl := by
        intro lvl _
        exact (count_map_fst_filter_level lvl p pt.modules hnd).1 m hlk
      rw [List.map_congr_left hcnt,
        sum_map_indicator m.level (descLevels pt) (descLevels_nodup pt),
        if_pos (mem_descLevels pt hnd p m hlk)]
      rfl
  | none =>
      have hcnt : ∀ lvl ∈ descLevels pt, (List.count p ∘ atLevel pt) lvl = 0 := by
        intro lvl _
        exact (count_map_fst_filter_level lvl p pt.modules hnd).2 hlk
      rw [List.sum_eq_zero (by
        intro x hx
        obtain ⟨lvl, hlvl, hxe⟩ := List.mem_map.mp hx
        rw [← hxe]
        exact hcnt lvl hlvl)]
      rfl

/-- C5 counterexample: in the scenario tree, `get_processing_order`
returns `[["a/b"], ["a"]]`; module `"a/b"` has level `1` but appears in
the batch at index `0`, so the claim that each module's level equals its
batch index is false. -/
theorem level_ne_batch_index :
    get_processing_order ptEx = some [["a/b"], ["a"]]
    ∧ (dlookup ptEx.modules "a/b").map ParsedModule.level = some 1
    ∧ batchIdx [["a/b"], ["a"]] "a/b" = 0
    ∧ (1 : Nat) ≠ 0 :=
  ⟨rfl, rfl, rfl, by decide⟩

/-- C5 (amended): the batches returned by `get_processing_order` are the
per-level path lists of the nonempty levels in descending level order;
every parsed module path appears in exactly one batch exactly once (the
flattened batches count each present path once and absent paths zero
times); and each module's batch index equals the number of nonempty
levels strictly greater than its level (not the level itself, since
batches run from the deepest level down). -/
theorem processing_order_partition (t : MForest)
    (hne : (parse_module_tree t).modules ≠ []) :
    get_processing_order (parse_module_tree t) =
      some ((descLevels (parse_module_tree t)).map (atLevel (parse_module_tree t)))
    ∧ (∀ p, ((((descLevels (parse_module_tree t)).map
          (atLevel (parse_module_tree t))).flatten).count p) =
        if (dlookup (parse_module_tree t).modules p).isSome then 1 else 0)
    ∧ (∀ p m, dlookup (parse_module_tree t).modules p = some m →
        batchIdx ((descLevels (parse_module_tree t)).map
            (atLevel (parse_module_tree t))) p =
          (descLevels (parse_module_tree t)).countP
            (fun lvl => decide (m.level < lvl))) := by
  have hnd := parse_keys_nodup t
  refine ⟨get_processing_order_eq _ hne, fun p => count_flatten_batches _ hnd p, ?_⟩
  intro p m h
  rw [batchIdx_eq _ hnd p m h]
  exact findIdx_eq_countP_gt _ (descLevels_pairwise _) m.level (mem_descLevels _ hnd p m h)

/-- Witness for C5 (amended) at the scenario tree, module `"a/b"`. -/
theorem processing_order_partition_witness :
    get_processing_order ptEx = some ((descLevels ptEx).map (atLevel ptEx))
    ∧ (((descLevels ptEx).map (atLevel ptEx)).flatten).count "a/b" =
        (if (dlookup ptEx.modules "a/b").isSome then 1 else 0)
    ∧ batchIdx ((descLevels ptEx).map (atLevel ptEx)) "a/b" =
        (descLevels ptEx).countP (fun lvl => decide (mbEx.level < lvl)) := by
  have hne : ptEx.modules ≠ [] := by
    intro hh
    exact absurd (congrArg List.length hh) (by decide)
  obtain ⟨c1, c2, c3⟩ := processing_order_partition tEx hne
  exact ⟨c1, c2 "a/b", c3 "a/b" mbEx rfl⟩

theorem findIdx_lt_findIdx_of_gt (xs : List Nat)
    (hps : xs.Pairwise (fun a b => a > b)) (a b : Nat)
    (ha : a ∈ xs) (hb : b ∈ xs) (hab : b < a) :
    xs.findIdx (fun x => x == a) < xs.findIdx (fun x => x == b) := by
  have hia : xs.findIdx (fun x => x == a) < xs.length :=
    List.findIdx_lt_length_of_exists ⟨a, ha, beq_self_eq_true a⟩
  have hib : xs.findIdx (fun x => x == b) < xs.length :=
    List.findIdx_lt_length_of_exists ⟨b, hb, beq_self_eq_true b⟩
  have hga : xs[xs.findIdx (fun x => x == a)] = a :=
    beq_iff_eq.mp (@List.findIdx_getElem _ _ _ hia)
  have hgb : xs[xs.findIdx (fun x => x == b)] = b :=
    beq_iff_eq.mp (@List.findIdx_getElem _ _ _ hib)
  rcases Nat.lt_trichotomy (xs.findIdx (fun x => x == a))
      (xs.findIdx (fun x => x == b)) with h | h | h
  · exact h
  · exfalso
    have : a = b := by
      rw [← hga, ← hgb]
      congr 1
    rw [this] at hab
    exact Nat.lt_irrefl b hab
  · exfalso
    have hgt := (List.pairwise_iff_getElem.mp hps) _ _ hib hia h
    rw [hga, hgb] at hgt
    exact Nat.lt_asymm hgt hab

theorem isDesc_level_lt (t : MForest)
    (hnd : ((preorderList t none 0).map ParsedModule.path).Nodup) :
    ∀ (q r : String), IsDesc (parse_module_tree t) q r →
      ∀ mq' mr', dlookup (parse_module_tree t).modules q = some mq' →
        dlookup (parse_module_tree t).modules r = some mr' →
        mr'.level < mq'.level := by
  intro q r hdesc
  induction hdesc with
  | base hpar =>
      intro mq' mr' hq hr
      obtain ⟨m, hm, hmp⟩ := hpar
      have hmq : m = mq' := Option.some.inj (hm.symm.trans hq)
      subst hmq
      obtain ⟨m2, hm2, hlev⟩ := parse_parent_level t hnd _ m _ hq hmp
      have hm2' : m2 = mr' := Option.some.inj (hm2.symm.trans hr)
      subst hm2'
      rw [hlev]
      exact Nat.lt_succ_self _
  | step hpar _ ih =>
      intro mq' mr' hq hr
      obtain ⟨m, hm, hmp⟩ := hpar
      have hmq : m = mq' := Option.some.inj (hm.symm.trans hq)
      subst hmq
      obtain ⟨mmid, hmid, hlev⟩ := parse_parent_level t hnd _ m _ hq hmp
      have hlt := ih mmid mr' hmid hr
      rw [hlev]
      exact Nat.lt_succ_of_lt hlt

/-- C4 counterexample: with the duplicate-path tree
`{"a": {"children": {"a": {}}}}`, the parsed record of `"a"` has parent
`"a"`, so the path `"a"` is a descendant module of `"a"` itself; the
processing order is the single batch `[["a"]]`, and the descendant's
batch index is not strictly smaller than the ancestor's, refuting the
claimed guarantee. -/
theorem self_parent_breaks_bottom_up :
    IsDesc (parse_module_tree tDup) "a" "a"
    ∧ get_processing_order (parse_module_tree tDup) = some [["a"]]
    ∧ ¬ (batchIdx [["a"]] "a" < batchIdx [["a"]] "a") :=
  ⟨IsDesc.base ⟨(dlookup (parse_module_tree tDup).modules "a").getD
      ⟨"", [], .nil, none, true, 0⟩, rfl, rfl⟩,
   rfl, by decide⟩

/-- C4 (amended): provided the module path keys occurring in the tree are
pairwise distinct, `get_processing_order` returns the per-level batches
from the deepest level down to level 0, skipping levels that contain no
modules (every returned batch is nonempty), and for any module every
descendant module appears in a strictly earlier batch. -/
theorem processing_order_bottom_up (t : MForest)
    (hnd : ((preorderList t none 0).map ParsedModule.path).Nodup)
    (p q : String) (mp' mq' : ParsedModule)
    (hdesc : IsDesc (parse_module_tree t) q p)
    (hp : dlookup (parse_module_tree t).modules p = some mp')
    (hq : dlookup (parse_module_tree t).modules q = some mq') :
    get_processing_order (parse_module_tree t) =
      some ((descLevels (parse_module_tree t)).map (atLevel (parse_module_tree t)))
    ∧ (∀ b ∈ (descLevels (parse_module_tree t)).map (atLevel (parse_module_tree t)),
        b ≠ [])
    ∧ batchIdx ((descLevels (parse_module_tree t)).map
          (atLevel (parse_module_tree t))) q <
        batchIdx ((descLevels (parse_module_tree t)).map
          (atLevel (parse_module_tree t))) p := by
  have hkeys := parse_keys_nodup t
  have hne : (parse_module_tree t).modules ≠ [] := by
    intro hh
    rw [hh, dlookup] at hp
    exact absurd hp (by simp)
  refine ⟨get_processing_order_eq _ hne, ?_, ?_⟩
  · intro b hb hbnil
    obtain ⟨lvl, hlvl, hbe⟩ := List.mem_map.mp hb
    rw [descLevels, List.mem_filter] at hlvl
    rw [hbe, hbnil] at hlvl
    simp at hlvl
  · rw [batchIdx_eq _ hkeys q mq' hq, batchIdx_eq _ hkeys p mp' hp]
    exact findIdx_lt_findIdx_of_gt _ (descLevels_pairwise _) mq'.level mp'.level
      (mem_descLevels _ hkeys q mq' hq) (mem_descLevels _ hkeys p mp' hp)
      (isDesc_level_lt t hnd q p hdesc mq' mp' hq hp)

/-- Witness for C4 (amended) at the scenario tree: `"a/b"` is a child of
`"a"` and its batch comes strictly first. -/
theorem processing_order_bottom_up_witness :
    get_processing_order ptEx = some ((descLevels ptEx).map (atLevel ptEx))
    ∧ batchIdx ((descLevels ptEx).map (atLevel ptEx)) "a/b" <
        batchIdx ((descLevels ptEx).map (atLevel ptEx)) "a" := by
  have hnd : ((preorderList tEx none 0).map ParsedModule.path).Nodup := by decide
  have hdesc : IsDesc (parse_module_tree tEx) "a/b" "a" :=
    IsDesc.base ⟨mbEx, rfl, rfl⟩
  obtain ⟨c1, _, c3⟩ :=
    processing_order_bottom_up tEx hnd "a" "a/b" miEx mbEx hdesc rfl rfl
  exact ⟨c1, c3⟩
